import Mathlib

/-!
# Verification of the WhatsApp scheduler bot (workspace edition of `server.js`)

This file gives a shallow embedding of the slot-allocation and contact-state
core of `server.js` and proves/refutes the specification claims about it.

Modelling conventions:

* JavaScript `Date` values produced by the availability parser are represented
  as minutes since the start of the (current) year, as an `Int`, using the
  non-leap cumulative month-length table.  `new Date(year, mon, day, h, m)`
  with possibly out-of-range components is the linear function
  `(monthOffset mon + (day-1))*1440 + h*60 + m` of its arguments, which is
  exactly how JS normalizes component overflow; comparisons between two such
  dates and adding 60 minutes (`setHours(getHours()+1)` /
  `setMinutes(+slotMins)`) are therefore faithfully mirrored on this timeline.
* JS strings are Lean `String`s; `replace(/[^\d]/g,'')`, `trim()`,
  `replace(/\s+/g,' ')`, `toLowerCase()`, `endsWith` are implemented
  character-by-character below.
* The two regular expressions of `parseAvailabilityLine` are implemented as a
  deterministic scanner (`lineTokens`); because no later regex element can
  consume a digit left behind by a shortened `\d{1,2}` / `\d{2}` group,
  greedy scanning with a length check is equivalent to the backtracking
  regex semantics on every input.
* JS `Map`s are association lists in insertion order; `Map.set` overwrites in
  place (keeping the position) or appends, `Map.get` finds the unique entry.
-/

-- `mergeSort` ships sealed; unseal it so concrete states evaluate by `decide`/`rfl`.
unseal List.merge List.mergeSort

/-- `phoneDigitsOnly`: `(v || '').toString().replace(/[^\d]/g, '')`. -/
def phoneDigitsOnly (v : String) : String :=
  String.mk (v.toList.filter Char.isDigit)

/-- `toLowerCase()` (character by character; kernel-reducible). -/
def jsToLower (s : String) : String :=
  String.mk (s.toList.map Char.toLower)

/-- `String.prototype.startsWith` (kernel-reducible form). -/
def strStartsWith (s p : String) : Bool :=
  decide (s.toList.take p.toList.length = p.toList)

/-- `String.prototype.endsWith` (kernel-reducible form). -/
def strEndsWith (s suffix : String) : Bool :=
  decide (s.toList.drop (s.toList.length - suffix.toList.length) = suffix.toList)

/-- Drop the last `n` characters (kernel-reducible form). -/
def strDropRight (s : String) (n : Nat) : String :=
  String.mk (s.toList.take (s.toList.length - n))

/-- `waFormat`: digits, then prefix country code 65 unless already present,
as a `whatsapp:+...` address; `null` when there are no digits. -/
def waFormat (numberRaw : String) : Option String :=
  let digits := phoneDigitsOnly numberRaw
  if digits = "" then none
  else if strStartsWith digits "65" then some ("whatsapp:+" ++ digits)
  else some ("whatsapp:+65" ++ digits)

/-- JS `String.prototype.trim()` on a character list. -/
def jsTrim (cs : List Char) : List Char :=
  ((cs.dropWhile Char.isWhitespace).reverse.dropWhile Char.isWhitespace).reverse

/-- `replace(/\s+/g, ' ')`: collapse every whitespace run to a single blank.
The boolean argument records whether the previous character was whitespace. -/
def collapseWs : Bool → List Char → List Char
  | _, [] => []
  | prevWs, c :: rest =>
    if c.isWhitespace then
      if prevWs then collapseWs true rest else ' ' :: collapseWs true rest
    else c :: collapseWs false rest

/-- The preprocessed availability line: `line.trim().replace(/\s+/g,' ')`. -/
def normalizeLine (line : String) : List Char :=
  collapseWs false (jsTrim line.toList)

/-- Longest digit run at the head of the input, and the rest. -/
def spanDigits (cs : List Char) : List Char × List Char :=
  (cs.takeWhile Char.isDigit, cs.dropWhile Char.isDigit)

/-- `parseInt` on a digit string. -/
def readNat (cs : List Char) : Nat :=
  cs.foldl (fun a c => a * 10 + (c.toNat - 48)) 0

/-- After `collapseWs`, `\s*` can only consume blanks. -/
def skipSpace (cs : List Char) : List Char :=
  cs.dropWhile (fun c => c = ' ')

inductive Meridiem where
  | am
  | pm
deriving DecidableEq, Repr

/-- `(am|pm)?` on the (already lowercased) range string. -/
def parseMer (cs : List Char) : Option Meridiem × List Char :=
  match cs with
  | 'a' :: 'm' :: rest => (some Meridiem.am, rest)
  | 'p' :: 'm' :: rest => (some Meridiem.pm, rest)
  | _ => (none, cs)

/-- One side of the time range as matched by
`(\d{1,2})(?::(\d{2}))?\s*(am|pm)?`. -/
structure TimeTok where
  hour : Nat
  minutes : Option Nat
  mer : Option Meridiem
deriving DecidableEq, Repr

/-- Scan `(\d{1,2})(?::(\d{2}))?\s*(am|pm)?` and return the rest of the
input.  A digit run longer than the group's maximum makes the whole regex
fail (nothing after the group can absorb a digit), hence the length checks. -/
def parseTimeTok (cs : List Char) : Option (TimeTok × List Char) :=
  let (ds, r1) := spanDigits cs
  if ds.isEmpty then none
  else if 2 < ds.length then none
  else
    match r1 with
    | ':' :: r2 =>
      let (ms, r3) := spanDigits r2
      if ms.length = 2 then
        let (mer, r4) := parseMer (skipSpace r3)
        some ({ hour := readNat ds, minutes := some (readNat ms), mer := mer }, r4)
      else none
    | _ =>
      let (mer, r2) := parseMer (skipSpace r1)
      some ({ hour := readNat ds, minutes := none, mer := mer }, r2)

/-- `[-–]`: the range separator accepts a hyphen or an en dash. -/
def isDash (c : Char) : Bool :=
  c = '-' || c = '–'

/-- The whole range regex
`^(\d{1,2})(?::(\d{2}))?\s*(am|pm)?\s*[-–]\s*(\d{1,2})(?::(\d{2}))?\s*(am|pm)?$`. -/
def parseRangeTokens (cs : List Char) : Option (TimeTok × TimeTok) :=
  match parseTimeTok cs with
  | none => none
  | some (t1, r1) =>
    match skipSpace r1 with
    | [] => none
    | c :: r2 =>
      if isDash c then
        match parseTimeTok (skipSpace r2) with
        | none => none
        | some (t2, r3) => if r3.isEmpty then some (t1, t2) else none
      else none

def monthNames : List String :=
  ["jan", "feb", "mar", "apr", "may", "jun", "jul", "aug", "sep", "oct", "nov", "dec"]

/-- The structured result of the two regex matches of `parseAvailabilityLine`:
day, month index, and the two time tokens. -/
structure LineTok where
  day : Nat
  monIdx : Nat
  startTok : TimeTok
  endTok : TimeTok
deriving DecidableEq, Repr

/-- The scanning part of `parseAvailabilityLine`: preprocessing, the
`^(\d{1,2})\s+([A-Za-z]{3,})\s+(.*)$` match, `months.indexOf` on the
lowercased three-letter slice, and the range regex on the lowercased rest. -/
def lineTokens (line : String) : Option LineTok :=
  let raw := normalizeLine line
  if raw.isEmpty then none
  else
    let (ds, r1) := spanDigits raw
    if ds.isEmpty then none
    else if 2 < ds.length then none
    else
      match r1 with
      | ' ' :: r2 =>
        let letters := r2.takeWhile Char.isAlpha
        let r3 := r2.dropWhile Char.isAlpha
        if letters.length < 3 then none
        else
          match r3 with
          | ' ' :: r4 =>
            match List.findIdx? (fun m => m = String.mk ((letters.map Char.toLower).take 3)) monthNames with
            | none => none
            | some monIdx =>
              match parseRangeTokens (r4.map Char.toLower) with
              | none => none
              | some (t1, t2) =>
                some { day := readNat ds, monIdx := monIdx, startTok := t1, endTok := t2 }
          | _ => none
      | _ => none

/-- `to24`: meridiem-aware conversion of an hour to 24h form. -/
def to24 (h : Nat) (mer : Option Meridiem) : Nat :=
  match mer with
  | none => h
  | some Meridiem.am => if h = 12 then 0 else h
  | some Meridiem.pm => if h = 12 then 12 else h + 12

/-- Cumulative days before each month (non-leap year). -/
def monthOffsetDays (m : Nat) : Nat :=
  [0, 31, 59, 90, 120, 151, 181, 212, 243, 273, 304, 334].getD m 365

/-- `new Date(year, monIdx, day, hour, minute)` as minutes since the start of
the year (linear in all components, as JS component normalization is). -/
def dateMin (monIdx day hour minute : Nat) : Int :=
  ((monthOffsetDays monIdx : Int) + (day : Int) - 1) * 1440 + (hour : Int) * 60 + (minute : Int)

/-- Fill a one-sided meridiem marker from the other side, exactly as
`if (!sMer && eMer) sMer = eMer; if (!eMer && sMer) eMer = sMer;` does. -/
def inheritMers (t : LineTok) : LineTok :=
  { t with
    startTok := { t.startTok with mer := t.startTok.mer <|> t.endTok.mer }
    endTok := { t.endTok with mer := t.endTok.mer <|> t.startTok.mer } }

/-- Turn matched tokens into the `start`/`end` dates computed by
`parseAvailabilityLine` before the end-fix: default minutes `'00'`, meridiem
inheritance, `to24`, then the two `new Date(...)` constructions. -/
def evalTokens (t : LineTok) : Int × Int :=
  let sMer := t.startTok.mer <|> t.endTok.mer
  let eMer := t.endTok.mer <|> sMer
  let startH := to24 t.startTok.hour sMer
  let endH := to24 t.endTok.hour eMer
  let startM := t.startTok.minutes.getD 0
  let endM := t.endTok.minutes.getD 0
  (dateMin t.monIdx t.day startH startM, dateMin t.monIdx t.day endH endM)

/-- The parsed `{start, end}` pair before `if (end <= start) end += 1h`. -/
def parsedStartEnd (line : String) : Option (Int × Int) :=
  (lineTokens line).map evalTokens

/-- `parseAvailabilityLine`: the scanner plus the meridian-wraparound fix
`if (end <= start) end.setHours(end.getHours() + 1)`. -/
def parseAvailabilityLine (line : String) : Option (Int × Int) :=
  (parsedStartEnd line).map (fun p => (p.1, if p.2 ≤ p.1 then p.2 + 60 else p.2))

/-! ## Claim C3: accepted lines and `end > start` -/

theorem evalTokens_inheritMers (t : LineTok) :
    evalTokens (inheritMers t) = evalTokens t := by
  cases t with
  | mk day monIdx startTok endTok =>
    cases startTok with
    | mk sh sm sMer =>
      cases endTok with
      | mk eh em eMer =>
        cases sMer <;> cases eMer <;> rfl

/-- Counterexample to claim C3.  The availability line `25 Aug 11-1pm` — the
spec's own motivating example for the meridian-wraparound fix — is accepted
by the parser, but the meridiem of `1pm` is inherited by `11`, so the range
starts at 23:00; the computed 13:00 end gets the one-hour fix and becomes
14:00, which is still far before the 23:00 start: the returned interval does
not satisfy `end > start`. -/
theorem parseAvailabilityLine_end_le_start :
    parseAvailabilityLine "25 Aug 11-1pm" = some (341220, 340680) ∧
      ¬ ((340680 : Int) > 341220) := by
  constructor
  · rfl
  · decide

/-- Claim C3, amended.  For every accepted availability line the parser does
inherit a one-sided am/pm marker before hours are computed, and does add one
hour to the computed end whenever it is `≤ start`; but the returned interval
satisfies `end > start` only when the computed end lies less than one hour
below the start (`start < computed end + 60`) — otherwise (e.g. `11-1pm`,
`5pm-1pm`) the parser still accepts the line and returns `end ≤ start`. -/
theorem parseAvailabilityLine_end_fix (line : String) (cs ce : Int)
    (h : parsedStartEnd line = some (cs, ce)) :
    parseAvailabilityLine line = some (cs, if ce ≤ cs then ce + 60 else ce) ∧
      ((lineTokens line).map (fun t => evalTokens (inheritMers t)) = some (cs, ce)) ∧
      ((if ce ≤ cs then ce + 60 else ce) > cs ↔ cs < ce + 60) := by
  refine ⟨?_, ?_, ?_⟩
  · simp [parseAvailabilityLine, h]
  · have h2 := h
    unfold parsedStartEnd at h2
    cases htok : lineTokens line with
    | none => rw [htok] at h2; simp at h2
    | some t =>
      rw [htok] at h2
      simp at h2
      simp [evalTokens_inheritMers, h2]
  · split <;> omega

theorem parseAvailabilityLine_end_fix_w :
    parsedStartEnd "25 Aug 1-5pm" = some (340620, 340860) ∧
      parseAvailabilityLine "25 Aug 1-5pm" =
        some (340620, if (340860 : Int) ≤ 340620 then 340860 + 60 else 340860) := by
  refine ⟨rfl, ?_⟩
  exact (parseAvailabilityLine_end_fix "25 Aug 1-5pm" 340620 340860 rfl).1

/-! ## Slot expander (`expandToBufferedSlots`) and claim C4 -/

/-- The `while (cursor < end)` loop of `expandToBufferedSlots`, with explicit
fuel (the JS loop diverges when `slotMins = 0`; with `0 < slotMins` the fuel
given below always suffices, so the embedding agrees with the source). -/
def expandLoop (slotMins bufferMins : Nat) : Nat → Int → Int → List (Int × Int)
  | 0, _, _ => []
  | fuel + 1, cursor, stop =>
    if cursor < stop then
      if stop < cursor + (slotMins : Int) then []
      else (cursor, cursor + (slotMins : Int)) ::
        expandLoop slotMins bufferMins fuel (cursor + ((slotMins : Int) + (bufferMins : Int))) stop
    else []

/-- `expandToBufferedSlots(start, end, slotMins, bufferMins)`: emit
`slotMins`-long slots from `start`, advancing by `slotMins + bufferMins`,
stopping before any slot whose end would pass `end`. -/
def expandToBufferedSlots (start stop : Int) (slotMins bufferMins : Nat) : List (Int × Int) :=
  expandLoop slotMins bufferMins ((stop - start).toNat + 1) start stop

theorem expandLoop_all_le (slotMins bufferMins : Nat) :
    ∀ (fuel : Nat) (cursor stop : Int),
      (expandLoop slotMins bufferMins fuel cursor stop).all
        (fun p => decide (p.2 ≤ stop)) = true := by
  intro fuel
  induction fuel with
  | zero => intro cursor stop; rfl
  | succ n ih =>
    intro cursor stop
    simp only [expandLoop]
    split
    · split
      · rfl
      · rename_i h1 h2
        simp only [List.all_cons, Bool.and_eq_true, decide_eq_true_eq]
        exact ⟨by omega, ih _ stop⟩
    · rfl

theorem expandLoop_nil_or_cons (slotMins bufferMins : Nat) (fuel : Nat) (cursor stop : Int) :
    expandLoop slotMins bufferMins (fuel + 1) cursor stop = [] ∨
      expandLoop slotMins bufferMins (fuel + 1) cursor stop =
        (cursor, cursor + (slotMins : Int)) ::
          expandLoop slotMins bufferMins fuel (cursor + ((slotMins : Int) + (bufferMins : Int))) stop := by
  simp only [expandLoop]
  split
  · split
    · exact Or.inl rfl
    · exact Or.inr rfl
  · exact Or.inl rfl

theorem expandLoop_chain (slotMins bufferMins : Nat) :
    ∀ (fuel : Nat) (cursor stop : Int),
      List.Chain' (fun p q : Int × Int => q.1 = p.1 + ((slotMins : Int) + (bufferMins : Int)))
        (expandLoop slotMins bufferMins fuel cursor stop) := by
  intro fuel
  induction fuel with
  | zero => intro cursor stop; exact List.chain'_nil
  | succ n ih =>
    intro cursor stop
    rcases expandLoop_nil_or_cons slotMins bufferMins n cursor stop with h | h
    · rw [h]; exact List.chain'_nil
    · rw [h]
      refine List.chain'_cons'.2 ⟨?_, ih _ stop⟩
      intro y hy
      cases n with
      | zero => simp [expandLoop] at hy
      | succ m =>
        rcases expandLoop_nil_or_cons slotMins bufferMins m
            (cursor + ((slotMins : Int) + (bufferMins : Int))) stop with h2 | h2
        · rw [h2] at hy; simp at hy
        · rw [h2] at hy
          simp only [List.head?_cons, Option.mem_def, Option.some.injEq] at hy
          subst hy
          rfl

/-- Claim C4.  For positive slot durations (the only ones on which the JS
loop terminates; the app always passes 60): every emitted slot ends at or
before the interval end, consecutive emitted slot starts differ by exactly
`slotMins + bufferMins`, and nothing is emitted when the interval is shorter
than one slot duration. -/
theorem expandToBufferedSlots_spec (start stop : Int) (slotMins bufferMins : Nat)
    (hpos : 0 < slotMins) :
    ((expandToBufferedSlots start stop slotMins bufferMins).all
        (fun p => decide (p.2 ≤ stop)) = true) ∧
      List.Chain' (fun p q : Int × Int => q.1 = p.1 + ((slotMins : Int) + (bufferMins : Int)))
        (expandToBufferedSlots start stop slotMins bufferMins) ∧
      (stop < start + (slotMins : Int) →
        expandToBufferedSlots start stop slotMins bufferMins = []) := by
  refine ⟨expandLoop_all_le slotMins bufferMins _ start stop,
    expandLoop_chain slotMins bufferMins _ start stop, ?_⟩
  intro hshort
  unfold expandToBufferedSlots
  simp only [expandLoop]
  by_cases h1 : start < stop
  · rw [if_pos h1, if_pos (by omega)]
  · rw [if_neg h1]

theorem expandToBufferedSlots_spec_w :
    0 < 60 ∧
      List.Chain' (fun p q : Int × Int => q.1 = p.1 + ((60 : Int) + (30 : Int)))
        (expandToBufferedSlots 0 150 60 30) :=
  ⟨by decide, (expandToBufferedSlots_spec 0 150 60 30 (by decide)).2.1⟩

/-! ## Slot labels (`humanSlotLabel`) -/

def pad2 (n : Nat) : String :=
  if n < 10 then "0" ++ toString n else toString n

def monthsShort : List String :=
  ["Jan", "Feb", "Mar", "Apr", "May", "Jun", "Jul", "Aug", "Sep", "Oct", "Nov", "Dec"]

def monthLengths : List Nat := [31, 28, 31, 30, 31, 30, 31, 31, 30, 31, 30, 31]

/-- Month index and (1-based) day of month for a day-of-year index. -/
def monthDayAux : List Nat → Nat → Int → Nat × Int
  | [], m, d => (m, d + 1)
  | len :: rest, m, d => if d < (len : Int) then (m, d + 1) else monthDayAux rest (m + 1) (d - (len : Int))

/-- `getMonth`/`getDate`/`getHours`/`getMinutes` of a minutes-of-year value. -/
def dateComponents (t : Int) : Nat × Int × Nat × Nat :=
  let dayIdx := t.ediv 1440
  let rem := (t.emod 1440).toNat
  let md := monthDayAux monthLengths 0 dayIdx
  (md.1, md.2, rem / 60, rem % 60)

/-- The inner `hm(date)` formatter of `humanSlotLabel`. -/
def hmStr (h mm : Nat) : String :=
  let hm :=
    if h = 0 then (12, "am")
    else if h = 12 then (12, "pm")
    else if h > 12 then (h - 12, "pm")
    else (h, "am")
  if mm ≠ 0 then toString hm.1 ++ ":" ++ pad2 mm ++ hm.2 else toString hm.1 ++ hm.2

/-- `humanSlotLabel(d1, d2)`: `"25 Aug 1–2pm"` style labels, collapsing a
shared meridiem.  (`hm` output always ends in `am`/`pm`, so
`replace(/(am|pm)$/,'')` is `dropRight 2`.) -/
def humanSlotLabel (d1 d2 : Int) : String :=
  let c1 := dateComponents d1
  let c2 := dateComponents d2
  let mon := monthsShort.getD c1.1 "undefined"
  let s := hmStr c1.2.2.1 c1.2.2.2
  let e := hmStr c2.2.2.1 c2.2.2.2
  let sMer := if strEndsWith s "am" then "am" else "pm"
  let eMer := if strEndsWith e "am" then "am" else "pm"
  let sCore := strDropRight s 2
  if sMer = eMer then
    toString c1.2.1 ++ " " ++ mon ++ " " ++ sCore ++ "–" ++ strDropRight e 2 ++ eMer
  else
    toString c1.2.1 ++ " " ++ mon ++ " " ++ s ++ "–" ++ e

/-! ## Data model: slots, clients, status aggregates, Excel rows, workspaces -/

/-- `{id, start, end, label, booked, bookedBy}`; the `end` field is called
`stop` because `end` is reserved in Lean. -/
structure Slot where
  id : String
  start : Int
  stop : Int
  label : String
  booked : Bool
  bookedBy : Option String
deriving DecidableEq, Repr

/-- One value of `clientsByWa`: `{name, phone, rowIndex, status, lastNotified}`
(`status` is stored trimmed and lowercased, as `buildClientMaps` reads it). -/
structure Client where
  name : String
  phone : String
  rowIndex : Nat
  status : String
  lastNotified : String
deriving DecidableEq, Repr

/-- One value of `statusByDigits`:
`{confirmed, pending, notified, rowIndices}`. -/
structure Agg where
  confirmed : Bool
  pending : Bool
  notified : Bool
  rowIndices : List Nat
deriving DecidableEq, Repr

def defaultAgg : Agg :=
  { confirmed := false, pending := false, notified := false, rowIndices := [] }

/-- One data row of the Excel sheet, with the six required columns.  Cells
are strings; an empty string is a blank (falsy) cell. -/
structure ExcelRow where
  clientName : String
  contactNumber : String
  bookedDate : String
  bookedTime : String
  status : String
  lastNotified : String
deriving DecidableEq, Repr

/-- JS `Map.get`. -/
def mapGet {α : Type} (m : List (String × α)) (k : String) : Option α :=
  (m.find? (fun p => p.1 = k)).map (fun p => p.2)

/-- JS `Map.set`: overwrite in place (keeping insertion position) if the key
exists, else append. -/
def mapSet {α : Type} (m : List (String × α)) (k : String) (v : α) : List (String × α) :=
  if m.any (fun p => p.1 = k) then m.map (fun p => if p.1 = k then (k, v) else p)
  else m ++ [(k, v)]

/-- Per-workspace state (the file-system and template parts are outside the
claims' scope; `sheet` is the workspace's `excelState` worksheet). -/
structure Workspace where
  sheet : List ExcelRow
  clientsByWa : List (String × Client)
  statusByDigits : List (String × Agg)
  availabilitySlots : List Slot
  lastBroadcastOrder : List String
deriving DecidableEq, Repr

/-! ## Set availability (claim C8) -/

/-- Buffer validation: only 0/30/60 allowed, anything else falls back to 0. -/
def validBuffer (bufferMinutes : Option Nat) : Nat :=
  let bufRaw := bufferMinutes.getD 0
  if bufRaw = 0 ∨ bufRaw = 30 ∨ bufRaw = 60 then bufRaw else 0

def jsTrimStr (s : String) : String :=
  String.mk (jsTrim s.toList)

/-- `split(/\r?\n/)`: `\r\n` or `\n` separates; a lone `\r` does not. -/
def splitLinesAux : List Char → List Char → List (List Char)
  | [], cur => [cur.reverse]
  | '\r' :: '\n' :: rest, cur => cur.reverse :: splitLinesAux rest []
  | '\n' :: rest, cur => cur.reverse :: splitLinesAux rest []
  | c :: rest, cur => splitLinesAux rest (c :: cur)

/-- `availabilityText.split(/\r?\n/).map(s => s.trim()).filter(Boolean)`. -/
def splitAvailabilityLines (text : String) : List String :=
  (((splitLinesAux text.toList []).map (fun cs => jsTrimStr (String.mk cs)))).filter
    (fun l => l ≠ "")

/-- The pooling loop of `set-availability`: parse each line, expand it with a
60-minute slot duration and the given buffer, and append the slots (id still
empty, `booked:false`). -/
def slotsOfLines (lines : List String) (buffer : Nat) : List Slot :=
  lines.foldl (fun acc line =>
    match parseAvailabilityLine line with
    | none => acc
    | some (s, e) =>
      acc ++ (expandToBufferedSlots s e 60 buffer).map (fun p =>
        { id := "", start := p.1, stop := p.2, label := humanSlotLabel p.1 p.2,
          booked := false, bookedBy := none })) []

/-- `availabilitySlots.sort((a,b) => a.start - b.start)`: a stable sort by
start time (JS `Array.prototype.sort` is stable, as is `mergeSort`). -/
def sortSlots (slots : List Slot) : List Slot :=
  slots.mergeSort (fun a b => decide (a.start ≤ b.start))

/-- `availabilitySlots.forEach((s, idx) => s.id = `S${idx + 1}`)`. -/
def assignIds (slots : List Slot) : List Slot :=
  slots.enum.map (fun p => { p.2 with id := "S" ++ toString (p.1 + 1) })

/-- The slot set produced by one `set-availability` call (depends only on
the text and the buffer). -/
def freshSlots (availabilityText : String) (buffer : Nat) : List Slot :=
  assignIds (sortSlots (slotsOfLines (splitAvailabilityLines availabilityText) buffer))

/-- `POST /api/w/:ws/set-availability`: replace the slot set and reset the
broadcast order. -/
def setAvailability (ws : Workspace) (availabilityText : String)
    (bufferMinutes : Option Nat) : Workspace :=
  { ws with
    availabilitySlots := freshSlots availabilityText (validBuffer bufferMinutes)
    lastBroadcastOrder := [] }

theorem assignIds_map_of {α : Type} (l : List Slot) (f : Slot → α)
    (hf : ∀ (s : Slot) (i : Nat), f { s with id := "S" ++ toString (i + 1) } = f s) :
    (assignIds l).map f = l.map f := by
  unfold assignIds
  rw [List.map_map]
  have h1 : List.map (f ∘ fun p : Nat × Slot => { p.2 with id := "S" ++ toString (p.1 + 1) }) l.enum =
      List.map (f ∘ Prod.snd) l.enum :=
    List.map_congr_left (fun p _ => hf p.2 p.1)
  rw [h1, ← List.map_map, List.enum_map_snd]

theorem assignIds_ids (l : List Slot) :
    (assignIds l).map Slot.id = (List.range l.length).map (fun i => "S" ++ toString (i + 1)) := by
  unfold assignIds
  rw [List.map_map]
  have : (Slot.id ∘ fun p : Nat × Slot => { p.2 with id := "S" ++ toString (p.1 + 1) }) =
      (fun i => "S" ++ toString (i + 1)) ∘ Prod.fst := rfl
  rw [this, ← List.map_map, List.enum_map_fst]

theorem assignIds_length (l : List Slot) : (assignIds l).length = l.length := by
  simp [assignIds, List.enum_length]

theorem sortSlots_pairwise (l : List Slot) :
    List.Pairwise (fun a b : Slot => a.start ≤ b.start) (sortSlots l) := by
  have h := @List.sorted_mergeSort Slot (fun a b => decide (a.start ≤ b.start))
    (by intro a b c hab hbc
        rw [decide_eq_true_eq] at *
        omega)
    (by intro a b
        rcases le_total a.start b.start with h | h <;> simp [h]) l
  exact h.imp (by intro a b hab; rw [decide_eq_true_eq] at hab; exact hab)

theorem slotsOfLines_loop_unbooked (buffer : Nat) :
    ∀ (lines : List String) (acc : List Slot),
      acc.all (fun s => !s.booked && s.bookedBy.isNone) = true →
      (lines.foldl (fun acc line =>
        match parseAvailabilityLine line with
        | none => acc
        | some (s, e) =>
          acc ++ (expandToBufferedSlots s e 60 buffer).map (fun p =>
            { id := "", start := p.1, stop := p.2, label := humanSlotLabel p.1 p.2,
              booked := false, bookedBy := none })) acc).all
        (fun s => !s.booked && s.bookedBy.isNone) = true := by
  intro lines
  induction lines with
  | nil => intro acc hacc; exact hacc
  | cons line rest ih =>
    intro acc hacc
    simp only [List.foldl_cons]
    apply ih
    cases parseAvailabilityLine line with
    | none => exact hacc
    | some p =>
      rw [List.all_append, hacc, Bool.true_and, List.all_eq_true]
      intro x hx
      rcases List.mem_map.1 hx with ⟨q, hq, rfl⟩
      rfl

theorem freshSlots_unbooked (text : String) (buffer : Nat) :
    (freshSlots text buffer).all (fun s => !s.booked && s.bookedBy.isNone) = true := by
  unfold freshSlots
  rw [List.all_eq_true]
  intro x hx
  have hperm : (sortSlots (slotsOfLines (splitAvailabilityLines text) buffer)).Perm
      (slotsOfLines (splitAvailabilityLines text) buffer) :=
    List.mergeSort_perm _ _
  have hall := slotsOfLines_loop_unbooked buffer (splitAvailabilityLines text) [] rfl
  rw [List.all_eq_true] at hall
  unfold assignIds at hx
  rcases List.mem_map.1 hx with ⟨p, hp, rfl⟩
  have hmem : p.2 ∈ sortSlots (slotsOfLines (splitAvailabilityLines text) buffer) := by
    have := List.enum_map_snd (sortSlots (slotsOfLines (splitAvailabilityLines text) buffer))
    exact this ▸ List.mem_map_of_mem Prod.snd hp
  have := hall p.2 (hperm.mem_iff.1 hmem)
  simpa using this

/-- Claim C8.  One `set-availability` call pools the slots expanded from all
parsed lines, sorts them by start ascending, labels them `S1, S2, ...`, and
installs them as the workspace's slot set regardless of what was there
before (so any prior slot set is discarded), all fresh slots unbooked, and
the stale broadcast order is invalidated (reset to `[]`). -/
theorem setAvailability_spec (ws : Workspace) (text : String) (bufferMinutes : Option Nat) :
    (setAvailability ws text bufferMinutes).availabilitySlots =
        freshSlots text (validBuffer bufferMinutes) ∧
      ((setAvailability ws text bufferMinutes).availabilitySlots.map
          (fun s => (s.start, s.stop))).Perm
        ((slotsOfLines (splitAvailabilityLines text) (validBuffer bufferMinutes)).map
          (fun s => (s.start, s.stop))) ∧
      List.Pairwise (fun a b : Slot => a.start ≤ b.start)
        (setAvailability ws text bufferMinutes).availabilitySlots ∧
      (setAvailability ws text bufferMinutes).availabilitySlots.map Slot.id =
        (List.range (setAvailability ws text bufferMinutes).availabilitySlots.length).map
          (fun i => "S" ++ toString (i + 1)) ∧
      (setAvailability ws text bufferMinutes).availabilitySlots.all
        (fun s => !s.booked && s.bookedBy.isNone) = true ∧
      (setAvailability ws text bufferMinutes).lastBroadcastOrder = [] := by
  refine ⟨rfl, ?_, ?_, ?_, ?_, rfl⟩
  · show ((freshSlots text (validBuffer bufferMinutes)).map (fun s => (s.start, s.stop))).Perm _
    unfold freshSlots
    rw [assignIds_map_of _ (fun s => (s.start, s.stop)) (fun s i => rfl)]
    exact (List.mergeSort_perm _ _).map _
  · show List.Pairwise _ (freshSlots text (validBuffer bufferMinutes))
    unfold freshSlots
    have h1 : List.Pairwise (fun a b : Int => a ≤ b)
        ((assignIds (sortSlots (slotsOfLines (splitAvailabilityLines text)
          (validBuffer bufferMinutes)))).map Slot.start) := by
      rw [assignIds_map_of _ Slot.start (fun s i => rfl)]
      rw [List.pairwise_map]
      exact sortSlots_pairwise _
    rw [List.pairwise_map] at h1
    exact h1
  · show (freshSlots text (validBuffer bufferMinutes)).map Slot.id =
      (List.range (freshSlots text (validBuffer bufferMinutes)).length).map
        (fun i => "S" ++ toString (i + 1))
    unfold freshSlots
    rw [assignIds_ids, assignIds_length]
  · exact freshSlots_unbooked text (validBuffer bufferMinutes)

/-! ## JS `Map` lemmas -/

theorem mapGet_mapSet_self {α : Type} (m : List (String × α)) (k : String) (v : α) :
    mapGet (mapSet m k v) k = some v := by
  unfold mapSet
  split
  · rename_i h
    unfold mapGet
    rw [List.find?_map]
    have hp : ((fun p : String × α => decide (p.1 = k)) ∘
        fun p : String × α => if p.1 = k then (k, v) else p) =
        fun p : String × α => decide (p.1 = k) := by
      funext p
      by_cases hpk : p.1 = k <;> simp [hpk]
    rw [hp]
    rcases hf : List.find? (fun p : String × α => decide (p.1 = k)) m with _ | q
    · rw [List.find?_eq_none] at hf
      rw [List.any_eq_true] at h
      rcases h with ⟨x, hx, hxk⟩
      exact absurd hxk (hf x hx)
    · have hq := List.find?_some hf
      rw [decide_eq_true_eq] at hq
      simp [hf, hq]
  · rename_i h
    unfold mapGet
    rw [List.find?_append]
    have hnone : List.find? (fun p : String × α => decide (p.1 = k)) m = none := by
      rw [List.find?_eq_none]
      intro x hx hxk
      exact h (List.any_eq_true.2 ⟨x, hx, hxk⟩)
    simp [hnone]

theorem mapGet_mapSet_ne {α : Type} (m : List (String × α)) (k k' : String) (v : α)
    (h : k' ≠ k) : mapGet (mapSet m k v) k' = mapGet m k' := by
  unfold mapSet
  split
  · unfold mapGet
    rw [List.find?_map]
    have hp : ((fun p : String × α => decide (p.1 = k')) ∘
        fun p : String × α => if p.1 = k then (k, v) else p) =
        fun p : String × α => decide (p.1 = k') := by
      funext p
      by_cases hpk : p.1 = k
      · simp [hpk, Ne.symm h]
      · simp [hpk]
    rw [hp]
    rcases hf : List.find? (fun p : String × α => decide (p.1 = k')) m with _ | q
    · simp
    · have hq := List.find?_some hf
      rw [decide_eq_true_eq] at hq
      simp [hq, h]
  · unfold mapGet
    rw [List.find?_append]
    rcases hf : List.find? (fun p : String × α => decide (p.1 = k')) m with _ | q
    · have hne : ¬ ((k, v).1 = k') := fun hk => h hk.symm
      simp [hne]
    · simp

/-! ## Contact directory (`buildClientMaps`) -/

def jsTrimLowerStatus (s : String) : String :=
  jsToLower (jsTrimStr s)

/-- `(cell || '').toString().trim().toLowerCase()` of a row's Status cell. -/
def cellStatusLower (row : ExcelRow) : String :=
  jsTrimLowerStatus row.status

/-- The digit identifier of a row's Contact Number cell as `buildClientMaps`
computes it (`phoneDigitsOnly(phoneRaw)` of the trimmed cell). -/
def rowDigits (row : ExcelRow) : String :=
  phoneDigitsOnly (jsTrimStr row.contactNumber)

/-- The row loop of `buildClientMaps`, over `(rowIndex, row)` pairs (rows are
0-indexed here; the sheet's `r = 2..` offset is immaterial).  It threads the
workspace's `clientsByWa`/`statusByDigits` plus the global `waToWs`. -/
def buildLoop (wsId : String) :
    List (Nat × ExcelRow) →
      List (String × Client) × List (String × Agg) × List (String × String) →
      List (String × Client) × List (String × Agg) × List (String × String)
  | [], acc => acc
  | (r, row) :: rest, (clients, statusM, waMap) =>
    let phoneRaw := jsTrimStr row.contactNumber
    let status := cellStatusLower row
    let digits := phoneDigitsOnly phoneRaw
    let step1 :=
      match waFormat phoneRaw with
      | some wa =>
        (mapSet clients wa
          { name := jsTrimStr row.clientName, phone := phoneRaw, rowIndex := r,
            status := status, lastNotified := row.lastNotified },
          mapSet waMap wa wsId)
      | none => (clients, waMap)
    let statusM2 :=
      if digits = "" then statusM
      else
        let agg := (mapGet statusM digits).getD defaultAgg
        mapSet statusM digits
          { confirmed := agg.confirmed || decide (status = "confirmed")
            pending := agg.pending || decide (status = "pending")
            notified := agg.notified || decide (row.lastNotified ≠ "")
            rowIndices := agg.rowIndices ++ [r] }
    buildLoop wsId rest (step1.1, statusM2, step1.2)

/-- `buildClientMaps(ws)`: fresh `clientsByWa`/`statusByDigits` built from
the sheet; the global `waToWs` is extended (never cleared). -/
def buildClientMaps (wsId : String) (sheet : List ExcelRow)
    (waMap : List (String × String)) :
    List (String × Client) × List (String × Agg) × List (String × String) :=
  buildLoop wsId sheet.enum ([], [], waMap)

/-- The aggregate looked up in `statusByDigits`, with the `|| {…defaults…}`
fallback used throughout the source. -/
def aggOf (m : List (String × Agg)) (d : String) : Agg :=
  (mapGet m d).getD defaultAgg

/-- The sheet rows whose Contact Number digits equal the identifier. -/
def rowsForDigits (sheet : List ExcelRow) (d : String) : List (Nat × ExcelRow) :=
  sheet.enum.filter (fun p => decide (rowDigits p.2 = d))

theorem buildLoop_agg_flags (wsId : String) (d : String) (hd : d ≠ "") :
    ∀ (rows : List (Nat × ExcelRow)) (clients : List (String × Client))
      (statusM : List (String × Agg)) (waMap : List (String × String)),
      (aggOf (buildLoop wsId rows (clients, statusM, waMap)).2.1 d).pending =
          ((aggOf statusM d).pending ||
            rows.any (fun p => decide (rowDigits p.2 = d) &&
              decide (cellStatusLower p.2 = "pending"))) ∧
        (aggOf (buildLoop wsId rows (clients, statusM, waMap)).2.1 d).confirmed =
          ((aggOf statusM d).confirmed ||
            rows.any (fun p => decide (rowDigits p.2 = d) &&
              decide (cellStatusLower p.2 = "confirmed"))) := by
  intro rows
  induction rows with
  | nil => intro clients statusM waMap; simp [buildLoop]
  | cons pr rest ih =>
    intro clients statusM waMap
    rcases pr with ⟨r, row⟩
    simp only [buildLoop]
    by_cases hdig : phoneDigitsOnly (jsTrimStr row.contactNumber) = ""
    · rw [if_pos hdig]
      have hrow : ¬ (rowDigits row = d) := by
        unfold rowDigits
        rw [hdig]
        exact fun h => hd h.symm
      constructor
      · rw [(ih _ _ _).1]
        simp [List.any_cons, hrow]
      · rw [(ih _ _ _).2]
        simp [List.any_cons, hrow]
    · rw [if_neg hdig]
      by_cases hmatch : rowDigits row = d
      · have hmatch' : phoneDigitsOnly (jsTrimStr row.contactNumber) = d := hmatch
        constructor
        · rw [(ih _ _ _).1]
          unfold aggOf
          rw [hmatch', mapGet_mapSet_self]
          simp [List.any_cons, hmatch, Bool.or_assoc]
        · rw [(ih _ _ _).2]
          unfold aggOf
          rw [hmatch', mapGet_mapSet_self]
          simp [List.any_cons, hmatch, Bool.or_assoc]
      · have hmatch' : ¬ (d = phoneDigitsOnly (jsTrimStr row.contactNumber)) :=
          fun h => hmatch h.symm
        constructor
        · rw [(ih _ _ _).1]
          unfold aggOf
          rw [mapGet_mapSet_ne _ _ _ _ hmatch']
          simp [List.any_cons, hmatch]
        · rw [(ih _ _ _).2]
          unfold aggOf
          rw [mapGet_mapSet_ne _ _ _ _ hmatch']
          simp [List.any_cons, hmatch]

/-- The two skip flags of a broadcast, tied to the store rows: with
`statusByDigits` freshly built from the sheet, the aggregate's
`pending`/`confirmed` flags for an identifier hold exactly when some sheet
row with those digits has Status `pending`/`confirmed`. -/
theorem buildClientMaps_agg_flags (wsId : String) (sheet : List ExcelRow)
    (waMap : List (String × String)) (d : String) (hd : d ≠ "") :
    (aggOf (buildClientMaps wsId sheet waMap).2.1 d).pending =
        (rowsForDigits sheet d).any (fun p => decide (cellStatusLower p.2 = "pending")) ∧
      (aggOf (buildClientMaps wsId sheet waMap).2.1 d).confirmed =
        (rowsForDigits sheet d).any (fun p => decide (cellStatusLower p.2 = "confirmed")) := by
  have h := buildLoop_agg_flags wsId d hd sheet.enum [] [] waMap
  have he : aggOf [] d = defaultAgg := rfl
  rcases h with ⟨hp, hc⟩
  rw [he] at hp hc
  unfold buildClientMaps rowsForDigits
  rw [hp, hc]
  constructor
  · have h0 : defaultAgg.pending = false := rfl
    rw [h0, Bool.false_or, List.any_filter]
  · have h0 : defaultAgg.confirmed = false := rfl
    rw [h0, Bool.false_or, List.any_filter]

/-! ## Broadcast recipients (claims C5 and C7) -/

/-- One entry of the broadcast's `toSend` list. -/
structure Recip where
  wa : String
  digits : String
  client : Client
  rowIndices : List Nat
deriving DecidableEq, Repr

/-- JS `Set.has` on the `usedDigits` accumulator. -/
def usedHas (used : List String) (d : String) : Bool :=
  used.any (fun x => x = d)

/-- The eligibility loop of `POST /api/w/:ws/broadcast`: iterate
`clientsByWa` in insertion order, skip empty or already-seen digit
identifiers, skip (non-forced) identifiers whose aggregate has
`pending || confirmed`, and collect the rest. -/
def broadcastLoop (statusM : List (String × Agg)) (force : Bool) :
    List (String × Client) → List String → List Recip
  | [], _ => []
  | (wa, client) :: rest, used =>
    let digits := phoneDigitsOnly client.phone
    if digits = "" || usedHas used digits then broadcastLoop statusM force rest used
    else
      let agg := aggOf statusM digits
      if !force && (agg.pending || agg.confirmed) then
        broadcastLoop statusM force rest (digits :: used)
      else
        { wa := wa, digits := digits, client := client, rowIndices := agg.rowIndices } ::
          broadcastLoop statusM force rest (digits :: used)

/-- The broadcast's `toSend` recipient list. -/
def broadcastToSend (ws : Workspace) (force : Bool) : List Recip :=
  broadcastLoop ws.statusByDigits force ws.clientsByWa []

/-- Committing the broadcast order: the snapshot of open slot ids, frozen at
broadcast time (`ws.lastBroadcastOrder = availabilitySlots.filter(!booked).map(id)`). -/
def broadcastCommit (ws : Workspace) : Workspace :=
  { ws with lastBroadcastOrder := (ws.availabilitySlots.filter (fun s => !s.booked)).map Slot.id }

theorem broadcastLoop_clean (statusM : List (String × Agg)) :
    ∀ (clients : List (String × Client)) (used : List String),
      (broadcastLoop statusM false clients used).all
        (fun rcp => !(aggOf statusM rcp.digits).pending &&
          !(aggOf statusM rcp.digits).confirmed) = true := by
  intro clients
  induction clients with
  | nil => intro used; rfl
  | cons pc rest ih =>
    intro used
    rcases pc with ⟨wa, client⟩
    simp only [broadcastLoop]
    split
    · exact ih used
    · split
      · exact ih _
      · rename_i hskip hflag
        rw [List.all_cons]
        have hflag2 : ((aggOf statusM (phoneDigitsOnly client.phone)).pending ||
            (aggOf statusM (phoneDigitsOnly client.phone)).confirmed) = false := by
          revert hflag
          cases (aggOf statusM (phoneDigitsOnly client.phone)).pending <;>
            cases (aggOf statusM (phoneDigitsOnly client.phone)).confirmed <;> simp
        rw [Bool.or_eq_false_iff] at hflag2
        simp only [hflag2.1, hflag2.2, Bool.not_false, Bool.and_self, Bool.true_and]
        exact ih _

theorem broadcastLoop_force_covers (statusM : List (String × Agg)) :
    ∀ (clients : List (String × Client)) (used : List String) (wa : String) (c : Client),
      (wa, c) ∈ clients → phoneDigitsOnly c.phone ≠ "" →
      usedHas used (phoneDigitsOnly c.phone) = true ∨
        (broadcastLoop statusM true clients used).any
          (fun r => r.digits = phoneDigitsOnly c.phone) = true := by
  intro clients
  induction clients with
  | nil => intro used wa c h; exact absurd h (List.not_mem_nil _)
  | cons pc rest ih =>
    intro used wa c hmem hd
    rcases pc with ⟨wa0, c0⟩
    simp only [broadcastLoop, Bool.not_true, Bool.false_and, if_neg]
    rcases List.mem_cons.1 hmem with heq | hrest
    · injection heq with hwa hc
      subst hc
      by_cases hskip : (phoneDigitsOnly c.phone = "" || usedHas used (phoneDigitsOnly c.phone)) = true
      · rcases Bool.or_eq_true_iff.1 hskip with h0 | h0
        · exact absurd (of_decide_eq_true h0) hd
        · exact Or.inl h0
      · rw [if_neg hskip, if_neg (show ¬ (false = true) by simp)]
        right
        rw [List.any_cons]
        simp
    · by_cases hskip : (phoneDigitsOnly c0.phone = "" || usedHas used (phoneDigitsOnly c0.phone)) = true
      · rw [if_pos hskip]
        exact ih used wa c hrest hd
      · rw [if_neg hskip, if_neg (show ¬ (false = true) by simp)]
        rcases ih (phoneDigitsOnly c0.phone :: used) wa c hrest hd with hu | hin
        · unfold usedHas at hu
          rw [List.any_cons] at hu
          rcases Bool.or_eq_true_iff.1 hu with h0 | h0
          · right
            rw [List.any_cons]
            rw [decide_eq_true_eq] at h0
            simp [h0]
          · exact Or.inl h0
        · right
          rw [List.any_cons, hin, Bool.or_true]

theorem broadcastLoop_digits_ne (statusM : List (String × Agg)) (force : Bool) :
    ∀ (clients : List (String × Client)) (used : List String),
      (broadcastLoop statusM force clients used).all
        (fun r => !decide (r.digits = "")) = true := by
  intro clients
  induction clients with
  | nil => intro used; rfl
  | cons pc rest ih =>
    intro used
    rcases pc with ⟨wa, client⟩
    simp only [broadcastLoop]
    split
    · exact ih used
    · rename_i hskip
      split
      · exact ih _
      · rw [List.all_cons]
        have hd : ¬ (phoneDigitsOnly client.phone = "") := by
          intro h0
          exact hskip (by simp [h0])
        simp only [hd, decide_eq_false hd, Bool.not_false, Bool.true_and]
        exact ih _

theorem broadcastLoop_nodup (statusM : List (String × Agg)) (force : Bool) :
    ∀ (clients : List (String × Client)) (used : List String),
      ((broadcastLoop statusM force clients used).map (fun r => r.digits)).Nodup ∧
        ∀ d : String, usedHas used d = true →
          d ∉ (broadcastLoop statusM force clients used).map (fun r => r.digits) := by
  intro clients
  induction clients with
  | nil =>
    intro used
    exact ⟨List.nodup_nil, fun d _ => List.not_mem_nil d⟩
  | cons pc rest ih =>
    intro used
    rcases pc with ⟨wa, client⟩
    simp only [broadcastLoop]
    split
    · exact ih used
    · rename_i hskip
      have hnotused : usedHas used (phoneDigitsOnly client.phone) = false := by
        rcases h0 : usedHas used (phoneDigitsOnly client.phone) with _ | _
        · rfl
        · exact absurd (by simp [h0]) hskip
      split
      · refine ⟨(ih _).1, fun d hd => (ih _).2 d ?_⟩
        unfold usedHas at *
        rw [List.any_cons, hd, Bool.or_true]
      · rw [List.map_cons]
        constructor
        · rw [List.nodup_cons]
          refine ⟨(ih _).2 (phoneDigitsOnly client.phone) ?_, (ih _).1⟩
          unfold usedHas
          rw [List.any_cons]
          simp
        · intro d hd
          rw [List.mem_cons]
          intro hmem
          rcases hmem with heq | hmem
          · rw [heq] at hd
            rw [hd] at hnotused
            simp at hnotused
          · refine (ih _).2 d ?_ hmem
            unfold usedHas at hd ⊢
            rw [List.any_cons, hd, Bool.or_true]

/-- Claim C5.  With `statusByDigits` built from the sheet: in a non-forced
broadcast every recipient's identifier has no sheet row whose Status is the
`pending` marker or `confirmed` (identifiers with such a row — aggregate
Notified or Confirmed — are excluded); with `force=true` every identifier
appearing in `clientsByWa` with non-empty digits is included. -/
theorem broadcast_eligibility (wsId : String) (sheet : List ExcelRow)
    (waMap : List (String × String)) (ws : Workspace)
    (hs : ws.statusByDigits = (buildClientMaps wsId sheet waMap).2.1) :
    ((broadcastToSend ws false).all (fun rcp =>
        !(rowsForDigits sheet rcp.digits).any (fun p =>
          decide (cellStatusLower p.2 = "pending") ||
            decide (cellStatusLower p.2 = "confirmed"))) = true) ∧
      (ws.clientsByWa.all (fun pc =>
        decide (phoneDigitsOnly pc.2.phone = "") ||
          (broadcastToSend ws true).any
            (fun rcp => decide (rcp.digits = phoneDigitsOnly pc.2.phone))) = true) := by
  constructor
  · rw [List.all_eq_true]
    intro rcp hrcp
    have hclean := broadcastLoop_clean ws.statusByDigits ws.clientsByWa []
    rw [List.all_eq_true] at hclean
    have h1 := hclean rcp hrcp
    have hdig : rcp.digits ≠ "" := by
      have h2 := broadcastLoop_digits_ne ws.statusByDigits false ws.clientsByWa []
      rw [List.all_eq_true] at h2
      have := h2 rcp hrcp
      simpa using this
    have hflags := buildClientMaps_agg_flags wsId sheet waMap rcp.digits hdig
    rw [← hs] at hflags
    rw [Bool.and_eq_true, Bool.not_eq_true', Bool.not_eq_true'] at h1
    rw [h1.1] at hflags
    rw [h1.2] at hflags
    rw [Bool.not_eq_true', List.any_eq_false]
    intro p hp
    have hpend := (List.any_eq_false.1 hflags.1.symm) p hp
    have hconf := (List.any_eq_false.1 hflags.2.symm) p hp
    simp only [Bool.or_eq_true, not_or]
    exact ⟨hpend, hconf⟩
  · rw [List.all_eq_true]
    intro pc hpc
    rcases pc with ⟨wa, c⟩
    by_cases hd : phoneDigitsOnly c.phone = ""
    · simp [hd]
    · rcases broadcastLoop_force_covers ws.statusByDigits ws.clientsByWa [] wa c hpc hd
        with h0 | h0
      · exact absurd h0 (by simp [usedHas])
      · unfold broadcastToSend
        rw [h0, Bool.or_true]

theorem broadcast_eligibility_w :
    (([] : List (String × Agg)) = (buildClientMaps "w" [] []).2.1) ∧
      ((broadcastToSend
          { sheet := [], clientsByWa := [], statusByDigits := [], availabilitySlots := [],
            lastBroadcastOrder := [] } false).all (fun rcp =>
        !(rowsForDigits [] rcp.digits).any (fun p =>
          decide (cellStatusLower p.2 = "pending") ||
            decide (cellStatusLower p.2 = "confirmed"))) = true) :=
  ⟨rfl,
    (broadcast_eligibility "w" [] []
      { sheet := [], clientsByWa := [], statusByDigits := [], availabilitySlots := [],
        lastBroadcastOrder := [] } rfl).1⟩

/-- Claim C7.  In any single broadcast the `toSend` list never contains the
same digit identifier twice: deduplication is by normalized digits, so a
contact represented by several address variants or store rows sharing one
identifier is messaged at most once per broadcast. -/
theorem broadcast_sends_nodup_digits (ws : Workspace) (force : Bool) :
    ((broadcastToSend ws force).map (fun r => r.digits)).Nodup :=
  (broadcastLoop_nodup ws.statusByDigits force ws.clientsByWa []).1

/-! ## Row lookup, status refresh, slot listings -/

/-- `findRowByPhone(ws, raw)`: the first sheet row whose Contact Number
digits end with the caller's digits (both non-empty), with its row index. -/
def findRowByPhone (sheet : List ExcelRow) (phoneRaw : String) : Option (Nat × ExcelRow) :=
  let phoneDigits := phoneDigitsOnly phoneRaw
  sheet.enum.find? (fun p =>
    let digits := phoneDigitsOnly p.2.contactNumber
    !decide (digits = "") && !decide (phoneDigits = "") && strEndsWith digits phoneDigits)

/-- `refreshStatusForDigits(ws, digits)`: recompute the aggregate for one
identifier from the sheet (suffix digit matching) and store it. -/
def refreshStatusForDigits (ws : Workspace) (digits : String) : Workspace :=
  let scan := ws.sheet.enum.foldl (fun acc p =>
    let d := phoneDigitsOnly p.2.contactNumber
    if d = "" || digits = "" then acc
    else if !(strEndsWith d digits) then acc
    else
      let st := jsTrimLowerStatus p.2.status
      { confirmed := acc.confirmed || decide (st = "confirmed")
        pending := acc.pending || decide (st = "pending")
        notified := acc.notified || decide (p.2.lastNotified ≠ "")
        rowIndices := acc.rowIndices ++ [p.1] }) defaultAgg
  { ws with statusByDigits := mapSet ws.statusByDigits digits scan }

/-- `listSlotsForMessage(ws)`: the live numbered open-slot lines. -/
def listSlotsLiveLines (ws : Workspace) : List String :=
  (ws.availabilitySlots.filter (fun s => !s.booked)).enum.map
    (fun p => toString (p.1 + 1) ++ ") " ++ p.2.label)

def listSlotsForMessage (ws : Workspace) : String :=
  let lines := listSlotsLiveLines ws
  if lines.isEmpty then "(All slots have been booked)" else String.intercalate "\n" lines

/-- `new Map(availabilitySlots.map(s => [s.id, s])).get(sid)`: the **last**
entry for a duplicated id wins, hence the reversed search. -/
def idToSlotGet (slots : List Slot) (sid : String) : Option Slot :=
  slots.reverse.find? (fun s => s.id = sid)

/-- The `forEach` push step of `listSlotsStable`. -/
def stableLinePush (slots : List Slot) (lines : List String) (p : Nat × String) : List String :=
  match idToSlotGet slots p.2 with
  | some slot =>
    if !slot.booked then lines ++ [toString (p.1 + 1) ++ ") " ++ slot.label] else lines
  | none => lines

/-- The numbered lines of `listSlotsStable`: original broadcast-order
positions, booked (or vanished) slots omitted. -/
def listSlotsStableLines (ws : Workspace) : List String :=
  ws.lastBroadcastOrder.enum.foldl (stableLinePush ws.availabilitySlots) []

/-- `listSlotsStable(ws)`: stable numbering from `lastBroadcastOrder`, or the
live list when no broadcast order exists. -/
def listSlotsStable (ws : Workspace) : String :=
  if ws.lastBroadcastOrder.isEmpty then listSlotsForMessage ws
  else
    let lines := listSlotsStableLines ws
    if lines.isEmpty then "(All slots have been booked)" else String.intercalate "\n" lines

/-! ## Follow-up broadcast (claim C9) -/

/-- Whether one `clientsByWa` entry is targeted by a follow-up: its sheet row
(looked up fresh from the store) must have Status exactly `pending`. -/
def followupPred (ws : Workspace) (pc : String × Client) : Bool :=
  match findRowByPhone ws.sheet pc.2.phone with
  | none => false
  | some q => decide (jsTrimLowerStatus q.2.status = "pending")

/-- The recipient loop of `POST /api/w/:ws/followup-broadcast`. -/
def followupToSend (ws : Workspace) : List (String × Client) :=
  ws.clientsByWa.foldl (fun toSend pc =>
    if followupPred ws pc then toSend ++ [pc] else toSend) []

/-- The slot listing rendered into every follow-up body
(`const slotsText = listSlotsStable(ws)`). -/
def followupSlotsText (ws : Workspace) : String :=
  listSlotsStable ws

/-! ## Global state and the inbound webhook (claims C1, C2, C6, C10) -/

structure GlobalState where
  workspaces : List (String × Workspace)
  waToWs : List (String × String)
deriving DecidableEq, Repr

/-- The inbound message body after the handler's regex stage: a menu
command (`/\b(menu|slots|options|list)\b/i`), a numeric choice
(`/\b(\d{1,3})\b/`, so 0 ≤ n ≤ 999), or anything else. -/
inductive MsgBody where
  | menu
  | num (n : Nat)
  | invalid
deriving DecidableEq, Repr

/-- The handler's observable outcome: each constructor is one `sendWa`
reply (except `ignored`, which sends nothing). -/
inductive Outcome where
  | ignored
  | menuSent (body : String)
  | invalidPrompt
  | alreadyConfirmed (bookedDate bookedTime : String)
  | unavailable
  | taken
  | confirmed (slotLabel : String)
deriving DecidableEq, Repr

def Outcome.isConfirmed : Outcome → Bool
  | confirmed _ => true
  | _ => false

/-- Workspace identification of an inbound sender: `waToWs` first, else a
scan of all workspaces (which repairs `waToWs`); returns the (possibly
updated) `waToWs` alongside. -/
def locateWs (st : GlobalState) (from_ : String) :
    Option (String × Workspace × List (String × String)) :=
  match (mapGet st.waToWs from_).bind
      (fun id => (mapGet st.workspaces id).map (fun w => (id, w))) with
  | some (id, w) => some (id, w, st.waToWs)
  | none =>
    match st.workspaces.find? (fun p => (mapGet p.2.clientsByWa from_).isSome) with
    | some (id, w) => some (id, w, mapSet st.waToWs from_ id)
    | none => none

/-- The double-booking guard (lines 1414-1426): looked-up row has Status
`confirmed` (lowercased, *not* trimmed here) and a non-empty Booked
Date/Time. -/
def confirmedGuard (ws : Workspace) (client? : Option Client) : Option (String × String) :=
  match client?.bind (fun c => findRowByPhone ws.sheet c.phone) with
  | none => none
  | some q =>
    if jsToLower q.2.status = "confirmed" && (!decide (q.2.bookedDate = "") || !decide (q.2.bookedTime = "")) then
      some (q.2.bookedDate, q.2.bookedTime)
    else none

inductive Resolution where
  | unavailable
  | found (i : Nat) (slot : Slot)
deriving DecidableEq, Repr

def Resolution.slotId? : Resolution → Option String
  | found _ slot => some slot.id
  | unavailable => none

/-- The open-slots fallback of reply resolution: position `idx` of the
currently unbooked slots (with its index into `availabilitySlots`). -/
def fallbackResolve (ws : Workspace) (idx : Nat) : Resolution :=
  match (ws.availabilitySlots.enum.filter (fun p => !p.2.booked))[idx]? with
  | some p => .found p.1 p.2
  | none => .unavailable

/-- Reply resolution (lines 1428-1442): try `lastBroadcastOrder[idx]` first
(id lookup via `find`), else fall back to the open-slots list. -/
def resolveSlotIdx (ws : Workspace) (idx : Nat) : Resolution :=
  let viaOrder : Option (Nat × Slot) :=
    if idx + 1 ≤ ws.lastBroadcastOrder.length then
      match ws.lastBroadcastOrder[idx]? with
      | some slotId => ws.availabilitySlots.enum.find? (fun p => p.2.id = slotId)
      | none => none
    else none
  match viaOrder with
  | some p => .found p.1 p.2
  | none => fallbackResolve ws idx

def padStart2 (s : String) : String :=
  if s.length < 2 then "0" ++ s else s

/-- `"${pad2(start.getDate())} ${months[start.getMonth()]}"`. -/
def bookedDateOnly (slot : Slot) : String :=
  let c := dateComponents slot.start
  padStart2 (toString c.2.1) ++ " " ++ monthsShort.getD c.1 "undefined"

/-- JS `split(' ')` on a character list. -/
def splitOnSpaceAux : List Char → List Char → List (List Char)
  | [], cur => [cur.reverse]
  | c :: rest, cur =>
    if c = ' ' then cur.reverse :: splitOnSpaceAux rest [] else splitOnSpaceAux rest (c :: cur)

/-- `humanSlotLabel(start,end).split(' ').slice(2).join(' ')`. -/
def bookedTimeLabel (slot : Slot) : String :=
  String.intercalate " "
    (((splitOnSpaceAux (humanSlotLabel slot.start slot.stop).toList []).map String.mk).drop 2)

/-- The booking step (lines 1444-1477): check `booked`, set
`booked`/`bookedBy`, write the Excel row, refresh the digit aggregate from
the sheet, and mark the in-memory client confirmed. -/
def bookSlot (ws : Workspace) (from_ : String) (client? : Option Client)
    (i : Nat) (slot : Slot) : Workspace × Outcome :=
  if slot.booked then (ws, .taken)
  else
    let ws2 := { ws with availabilitySlots :=
      ws.availabilitySlots.set i { slot with booked := true, bookedBy := some from_ } }
    let ws3 :=
      match client?.bind (fun c => findRowByPhone ws.sheet c.phone) with
      | some q =>
        let row2 : ExcelRow :=
          { q.2 with
            bookedDate := bookedDateOnly slot
            bookedTime := bookedTimeLabel slot
            status := "Confirmed" }
        { ws2 with sheet := ws.sheet.set q.1 row2 }
      | none => ws2
    let digits := match client? with | some c => phoneDigitsOnly c.phone | none => ""
    let ws4 := if digits = "" then ws3 else refreshStatusForDigits ws3 digits
    let ws5 :=
      match client? with
      | some _ =>
        { ws4 with clientsByWa := ws4.clientsByWa.map (fun pc =>
            if pc.1 = from_ then (pc.1, { pc.2 with status := "confirmed" }) else pc) }
      | none => ws4
    (ws5, .confirmed (humanSlotLabel slot.start slot.stop))

/-- Processing of a numeric reply inside the located workspace: index
validation, the already-confirmed guard, resolution, booking. -/
def processNum (ws : Workspace) (from_ : String) (n : Nat) : Workspace × Outcome :=
  if n = 0 then (ws, .invalidPrompt)
  else
    let client? := mapGet ws.clientsByWa from_
    match confirmedGuard ws client? with
    | some dt => (ws, .alreadyConfirmed dt.1 dt.2)
    | none =>
      match resolveSlotIdx ws (n - 1) with
      | .unavailable => (ws, .unavailable)
      | .found i slot => bookSlot ws from_ client? i slot

/-- `POST /whatsapp/inbound`: ack (implicit), locate the workspace, handle
menu/invalid/numeric bodies.  Each call returns the next global state and
the single reply sent (or `ignored`). -/
def handleInbound (st : GlobalState) (from_ : String) (body : MsgBody) :
    GlobalState × Outcome :=
  if from_ = "" then (st, .ignored)
  else
    match locateWs st from_ with
    | none => (st, .ignored)
    | some (wsKey, ws, waMap2) =>
      match body with
      | .menu => ({ st with waToWs := waMap2 }, .menuSent (listSlotsStable ws))
      | .invalid => ({ st with waToWs := waMap2 }, .invalidPrompt)
      | .num n =>
        let r := processNum ws from_ n
        ({ workspaces := mapSet st.workspaces wsKey r.1, waToWs := waMap2 }, r.2)

/-- The workspace key and slot index a numeric reply resolves to (none when
the handler exits before resolution or resolution fails). -/
def inboundResolution (st : GlobalState) (from_ : String) (n : Nat) : Option (String × Nat) :=
  if from_ = "" then none
  else
    match locateWs st from_ with
    | none => none
    | some (wsKey, ws, _) =>
      if n = 0 then none
      else
        match confirmedGuard ws (mapGet ws.clientsByWa from_) with
        | some _ => none
        | none =>
          match resolveSlotIdx ws (n - 1) with
          | .unavailable => none
          | .found i _ => some (wsKey, i)

/-- The booked flag of slot `i` of workspace `k`. -/
def slotBookedAt (st : GlobalState) (k : String) (i : Nat) : Option Bool :=
  (mapGet st.workspaces k).bind (fun ws => (ws.availabilitySlots[i]?).map Slot.booked)

/-- The booker of slot `i` of workspace `k`. -/
def slotBookedByAt (st : GlobalState) (k : String) (i : Nat) : Option (Option String) :=
  (mapGet st.workspaces k).bind (fun ws => (ws.availabilitySlots[i]?).map Slot.bookedBy)

/-! ## Global operations (workspace creation, upload, availability) -/

/-- `POST /api/workspaces`: create a workspace from an uploaded sheet. -/
def createWorkspace (st : GlobalState) (wsId : String) (sheet : List ExcelRow) : GlobalState :=
  let maps := buildClientMaps wsId sheet st.waToWs
  { workspaces := mapSet st.workspaces wsId
      { sheet := sheet, clientsByWa := maps.1, statusByDigits := maps.2.1,
        availabilitySlots := [], lastBroadcastOrder := [] }
    waToWs := maps.2.2 }

/-- `POST /api/w/:ws/upload-clients`: replace the sheet and rebuild both
maps; stale `waToWs` entries of the old sheet are *not* removed. -/
def uploadClients (st : GlobalState) (wsId : String) (sheet : List ExcelRow) : GlobalState :=
  match mapGet st.workspaces wsId with
  | none => st
  | some ws =>
    let maps := buildClientMaps wsId sheet st.waToWs
    { workspaces := mapSet st.workspaces wsId
        { ws with sheet := sheet, clientsByWa := maps.1, statusByDigits := maps.2.1 }
      waToWs := maps.2.2 }

/-- `POST /api/w/:ws/set-availability` at the global level. -/
def setAvailabilityG (st : GlobalState) (wsId : String) (text : String)
    (buf : Option Nat) : GlobalState :=
  match mapGet st.workspaces wsId with
  | none => st
  | some ws =>
    { st with workspaces := mapSet st.workspaces wsId (setAvailability ws text buf) }

/-! ## More JS `Map` lemmas (unique keys) -/

theorem mapGet_of_mem_nodup {α : Type} :
    ∀ (m : List (String × α)) (k : String) (v : α),
      (m.map Prod.fst).Nodup → (k, v) ∈ m → mapGet m k = some v := by
  intro m
  induction m with
  | nil => intro k v _ hmem; cases hmem
  | cons p rest ih =>
    intro k v hnd hmem
    rcases List.mem_cons.1 hmem with heq | hmem'
    · unfold mapGet
      have hfind : List.find? (fun q : String × α => decide (q.1 = k)) (p :: rest) = some p :=
        List.find?_cons_of_pos _ (by rw [← heq]; simp)
      rw [hfind, ← heq]
      rfl
    · have hk : ¬ (p.1 = k) := by
        intro hpk
        rw [List.map_cons, List.nodup_cons] at hnd
        have hx : k ∈ List.map Prod.fst rest := by
          have := List.mem_map_of_mem Prod.fst hmem'
          simpa using this
        exact hnd.1 (hpk.symm ▸ hx)
      unfold mapGet
      have hfind : List.find? (fun q : String × α => decide (q.1 = k)) (p :: rest) =
          List.find? (fun q : String × α => decide (q.1 = k)) rest :=
        List.find?_cons_of_neg _ (fun hc => hk (of_decide_eq_true hc))
      rw [hfind]
      exact ih k v (by rw [List.map_cons, List.nodup_cons] at hnd; exact hnd.2) hmem'

theorem mapGet_isSome_any {α : Type} {v : α} (m : List (String × α)) (k : String)
    (h : mapGet m k = some v) : m.any (fun p => p.1 = k) = true := by
  unfold mapGet at h
  rcases hf : m.find? (fun p => decide (p.1 = k)) with _ | q
  · rw [hf] at h; simp at h
  · have hq := List.find?_some hf
    exact List.any_eq_true.2 ⟨q, List.mem_of_find?_eq_some hf, hq⟩

theorem mapSet_eq_self {α : Type} :
    ∀ (m : List (String × α)) (k : String) (v : α),
      (m.map Prod.fst).Nodup → mapGet m k = some v → mapSet m k v = m := by
  intro m
  induction m with
  | nil => intro k v _ hget; simp [mapGet] at hget
  | cons p rest ih =>
    intro k v hnd hget
    rw [List.map_cons, List.nodup_cons] at hnd
    unfold mapSet
    rw [if_pos (mapGet_isSome_any _ k hget)]
    by_cases hpk : p.1 = k
    · have hv : p = (k, v) := by
        unfold mapGet at hget
        have hfind : List.find? (fun q : String × α => decide (q.1 = k)) (p :: rest) = some p :=
          List.find?_cons_of_pos _ (decide_eq_true hpk)
        rw [hfind] at hget
        simp at hget
        cases p
        simp only at hget hpk
        rw [hpk, hget]
      have hrest : rest.map (fun q => if q.1 = k then (k, v) else q) = rest := by
        have h1 : rest.map (fun q => if q.1 = k then (k, v) else q) = rest.map id := by
          apply List.map_congr_left
          intro q hq
          have hqk : ¬ (q.1 = k) := by
            intro hqk
            apply hnd.1
            have hx : q.1 ∈ List.map Prod.fst rest := List.mem_map_of_mem Prod.fst hq
            rw [hqk, ← hpk] at hx
            exact hx
          rw [if_neg hqk]
          rfl
        rw [h1, List.map_id]
      rw [List.map_cons, if_pos hpk, hrest, ← hv]
    · have hget' : mapGet rest k = some v := by
        unfold mapGet at hget ⊢
        have hfind : List.find? (fun q : String × α => decide (q.1 = k)) (p :: rest) =
            List.find? (fun q : String × α => decide (q.1 = k)) rest :=
          List.find?_cons_of_neg _ (fun hc => hpk (of_decide_eq_true hc))
        rw [hfind] at hget
        exact hget
      have hr := ih k v hnd.2 hget'
      unfold mapSet at hr
      rw [if_pos (mapGet_isSome_any _ k hget')] at hr
      rw [List.map_cons, if_neg hpk, hr]

theorem mapSet_keys_nodup {α : Type} (m : List (String × α)) (k : String) (v : α)
    (hnd : (m.map Prod.fst).Nodup) : ((mapSet m k v).map Prod.fst).Nodup := by
  unfold mapSet
  split
  · have : (m.map (fun p => if p.1 = k then (k, v) else p)).map Prod.fst = m.map Prod.fst := by
      rw [List.map_map]
      apply List.map_congr_left
      intro p _
      by_cases hpk : p.1 = k
      · simp [hpk]
      · simp [hpk]
    rw [this]
    exact hnd
  · rename_i hany
    rw [List.map_append]
    refine List.Nodup.append hnd (List.nodup_singleton _) ?_
    simp only [List.map_cons, List.map_nil]
    rw [List.disjoint_singleton]
    intro hk
    rcases List.mem_map.1 hk with ⟨p, hp, hpk⟩
    exact hany (List.any_eq_true.2 ⟨p, hp, by simpa using hpk⟩)

/-! ## Properties of workspace identification -/

theorem locateWs_mapGet (st : GlobalState) (from_ k : String) (ws : Workspace)
    (wmap : List (String × String))
    (hnd : (st.workspaces.map Prod.fst).Nodup)
    (hloc : locateWs st from_ = some (k, ws, wmap)) :
    mapGet st.workspaces k = some ws := by
  unfold locateWs at hloc
  rcases hw : mapGet st.waToWs from_ with _ | id2
  · rw [hw] at hloc
    rcases hf : st.workspaces.find? (fun p => (mapGet p.2.clientsByWa from_).isSome) with _ | q
    · rw [hf] at hloc
      exact Option.noConfusion hloc
    · rcases q with ⟨k0, w0⟩
      rw [hf] at hloc
      injection hloc with h1
      injection h1 with hk h2
      injection h2 with hws _
      rw [← hk, ← hws]
      exact mapGet_of_mem_nodup st.workspaces k0 w0 hnd (List.mem_of_find?_eq_some hf)
  · rw [hw] at hloc
    simp only [Option.some_bind] at hloc
    rcases hg : mapGet st.workspaces id2 with _ | w2
    · rw [hg] at hloc
      rcases hf : st.workspaces.find? (fun p => (mapGet p.2.clientsByWa from_).isSome) with _ | q
      · rw [hf] at hloc
        exact Option.noConfusion hloc
      · rcases q with ⟨k0, w0⟩
        rw [hf] at hloc
        injection hloc with h1
        injection h1 with hk h2
        injection h2 with hws _
        rw [← hk, ← hws]
        exact mapGet_of_mem_nodup st.workspaces k0 w0 hnd (List.mem_of_find?_eq_some hf)
    · rw [hg] at hloc
      injection hloc with h1
      injection h1 with hk h2
      injection h2 with hws _
      rw [← hk, ← hws]
      exact hg

/-! ## Claim C10: inbound messages from unknown senders -/

/-- Claim C10, amended.  A sender address that is neither routed by the
global `waToWs` index (to a live workspace) nor present in any workspace's
`clientsByWa` is silently ignored: no reply of any kind is sent and the
global state is unchanged.  (Presence in `waToWs` alone — a stale mapping
left by a client re-upload — is enough to be processed, which is what the
counterexample exploits.) -/
theorem inbound_unknown_ignored (st : GlobalState) (from_ : String) (body : MsgBody)
    (h1 : (mapGet st.waToWs from_).bind (fun wsId => mapGet st.workspaces wsId) = none)
    (h2 : st.workspaces.all (fun p => !(mapGet p.2.clientsByWa from_).isSome) = true) :
    handleInbound st from_ body = (st, Outcome.ignored) := by
  unfold handleInbound
  by_cases hf : from_ = ""
  · rw [if_pos hf]
  · rw [if_neg hf]
    have hloc : locateWs st from_ = none := by
      unfold locateWs
      have hb : (mapGet st.waToWs from_).bind
          (fun wsId => (mapGet st.workspaces wsId).map (fun w => (wsId, w))) = none := by
        rcases hw : mapGet st.waToWs from_ with _ | wsId
        · rfl
        · rw [hw, Option.some_bind] at h1
          rw [Option.some_bind, h1]
          rfl
      rw [hb]
      have hfind : st.workspaces.find? (fun p => (mapGet p.2.clientsByWa from_).isSome) = none := by
        rw [List.find?_eq_none]
        intro p hp
        rw [List.all_eq_true] at h2
        have := h2 p hp
        simp only [Bool.not_eq_true'] at this
        simp [this]
      rw [hfind]
    rw [hloc]

theorem inbound_unknown_ignored_w :
    handleInbound { workspaces := [], waToWs := [] } "whatsapp:+65000" MsgBody.invalid =
      ({ workspaces := [], waToWs := [] }, Outcome.ignored) :=
  inbound_unknown_ignored { workspaces := [], waToWs := [] } "whatsapp:+65000"
    MsgBody.invalid (by decide) (by decide)

def c10RowX : ExcelRow :=
  { clientName := "Xavier", contactNumber := "91111111", bookedDate := "", bookedTime := "",
    status := "", lastNotified := "" }

def c10RowY : ExcelRow :=
  { clientName := "Yann", contactNumber := "92222222", bookedDate := "", bookedTime := "",
    status := "", lastNotified := "" }

/-- A reachable state: workspace `w1` created from a sheet containing only
Xavier, then its sheet replaced (re-upload) by one containing only Yann,
then availability set.  `waToWs` still maps Xavier's address to `w1`. -/
def c10State : GlobalState :=
  setAvailabilityG (uploadClients (createWorkspace ⟨[], []⟩ "w1" [c10RowX]) "w1" [c10RowY])
    "w1" "25 Aug 1-2pm" none

/-- Counterexample to claim C10.  Xavier's address appears in no workspace's
contact directory, yet his inbound reply `1` is not silently ignored: the
stale `waToWs` entry routes it into `w1`, the handler answers (here it even
books the open slot for the unknown sender) and the state changes. -/
theorem inbound_unknown_sender_processed :
    (c10State.workspaces.all
        (fun p => !(mapGet p.2.clientsByWa "whatsapp:+6591111111").isSome) = true) ∧
      (handleInbound c10State "whatsapp:+6591111111" (MsgBody.num 1)).2 ≠ Outcome.ignored ∧
      (handleInbound c10State "whatsapp:+6591111111" (MsgBody.num 1)).2.isConfirmed = true ∧
      (handleInbound c10State "whatsapp:+6591111111" (MsgBody.num 1)).1 ≠ c10State := by
  exact ⟨by decide, by decide, by decide, by decide⟩

/-! ## Claim C9: follow-up recipients and stable numbering -/

theorem foldl_push_filter {α : Type} (p : α → Bool) :
    ∀ (l : List α) (acc : List α),
      l.foldl (fun acc x => if p x then acc ++ [x] else acc) acc = acc ++ l.filter p := by
  intro l
  induction l with
  | nil => intro acc; simp
  | cons x rest ih =>
    intro acc
    rw [List.foldl_cons, List.filter_cons]
    by_cases hx : p x
    · rw [if_pos hx, if_pos hx, ih]
      simp
    · rw [if_neg hx, if_neg hx, ih]

/-- What one broadcast-order position contributes to the stable listing. -/
def stableLineOf (slots : List Slot) (p : Nat × String) : Option String :=
  match idToSlotGet slots p.2 with
  | some slot =>
    if !slot.booked then some (toString (p.1 + 1) ++ ") " ++ slot.label) else none
  | none => none

theorem stableLinePush_foldl (slots : List Slot) :
    ∀ (ps : List (Nat × String)) (acc : List String),
      ps.foldl (stableLinePush slots) acc = acc ++ ps.filterMap (stableLineOf slots) := by
  intro ps
  induction ps with
  | nil => intro acc; simp
  | cons p rest ih =>
    intro acc
    rw [List.foldl_cons, List.filterMap_cons]
    have hstep : stableLinePush slots acc p =
        match stableLineOf slots p with
        | some b => acc ++ [b]
        | none => acc := by
      unfold stableLinePush stableLineOf
      rcases idToSlotGet slots p.2 with _ | slot
      · rfl
      · rcases hb : slot.booked
        · simp [hb]
        · simp [hb]
    rw [hstep]
    rcases hf : stableLineOf slots p with _ | b
    · exact ih acc
    · rw [ih, List.append_cons]

/-- Claim C9.  In a follow-up broadcast: (1) the recipient set is exactly
the `clientsByWa` entries whose freshly looked-up sheet row has Status
`pending` (trimmed, lowercased); (2) it is computed from the sheet only —
replacing the in-memory `statusByDigits` aggregate changes nothing; (3) the
body's slot listing is `listSlotsStable`, whose lines (4) are exactly the
broadcast-order positions of the still-unbooked slots — each displayed
number is the slot's original position in `lastBroadcastOrder`, booked
slots omitted; and (5) with a committed broadcast order the live renumbered
list is not used. -/
theorem followup_spec (ws : Workspace) (m : List (String × Agg))
    (h : ws.lastBroadcastOrder ≠ []) :
    followupToSend ws = ws.clientsByWa.filter (followupPred ws) ∧
      followupToSend { ws with statusByDigits := m } = followupToSend ws ∧
      followupSlotsText ws = listSlotsStable ws ∧
      listSlotsStableLines ws =
        ws.lastBroadcastOrder.enum.filterMap (stableLineOf ws.availabilitySlots) ∧
      listSlotsStable ws =
        (if (listSlotsStableLines ws).isEmpty then "(All slots have been booked)"
          else String.intercalate "\n" (listSlotsStableLines ws)) := by
  refine ⟨?_, rfl, rfl, ?_, ?_⟩
  · unfold followupToSend
    rw [foldl_push_filter (followupPred ws) ws.clientsByWa []]
    rfl
  · unfold listSlotsStableLines
    rw [stableLinePush_foldl _ _ []]
    rfl
  · unfold listSlotsStable
    rw [if_neg (by simpa [List.isEmpty_iff] using h)]

def c9Slot1 : Slot :=
  { id := "S1", start := 340620, stop := 340680, label := "25 Aug 1–2pm",
    booked := true, bookedBy := some "whatsapp:+6591234567" }

def c9Slot2 : Slot :=
  { id := "S2", start := 340680, stop := 340740, label := "25 Aug 2–3pm",
    booked := false, bookedBy := none }

def c9Row : ExcelRow :=
  { clientName := "Pia", contactNumber := "95555555", bookedDate := "", bookedTime := "",
    status := " Pending ", lastNotified := "ts" }

def c9Ws : Workspace :=
  { sheet := [c9Row]
    clientsByWa := (buildClientMaps "w1" [c9Row] []).1
    statusByDigits := []
    availabilitySlots := [c9Slot1, c9Slot2]
    lastBroadcastOrder := ["S1", "S2"] }

theorem followup_spec_w :
    c9Ws.lastBroadcastOrder ≠ [] ∧
      followupToSend c9Ws = c9Ws.clientsByWa.filter (followupPred c9Ws) ∧
      listSlotsStableLines c9Ws =
        c9Ws.lastBroadcastOrder.enum.filterMap (stableLineOf c9Ws.availabilitySlots) :=
  ⟨by decide, (followup_spec c9Ws [] (by decide)).1,
    (followup_spec c9Ws [] (by decide)).2.2.2.1⟩

/-! ## Claim C6: dual-path reply resolution -/

/-- Claim C6.  For a 1-based reply `N` (`idx = N-1`): when the committed
broadcast order covers `N` and its id names an existing slot (an invariant
of states produced by `broadcastCommit`/`setAvailability`), resolution goes
through the broadcast order — `order[idx]` names the slot id, and the first
slot with that id is returned, with the open-slots list ignored; only when
no broadcast order exists or `N` exceeds its length does resolution fall
back to indexing the current open (unbooked) slots at position `idx`. -/
theorem resolveSlotIdx_spec (ws : Workspace) (idx : Nat) :
    (idx + 1 ≤ ws.lastBroadcastOrder.length →
      ws.availabilitySlots.any (fun s => s.id = ws.lastBroadcastOrder.getD idx "") = true →
      resolveSlotIdx ws idx =
        (match ws.availabilitySlots.enum.find?
            (fun p => p.2.id = ws.lastBroadcastOrder.getD idx "") with
        | some p => Resolution.found p.1 p.2
        | none => Resolution.unavailable)) ∧
    (ws.lastBroadcastOrder.length < idx + 1 →
      resolveSlotIdx ws idx = fallbackResolve ws idx) := by
  constructor
  · intro hlen hany
    have hidx : idx < ws.lastBroadcastOrder.length := by omega
    have hget : ws.lastBroadcastOrder[idx]? = some (ws.lastBroadcastOrder.getD idx "") := by
      rw [List.getD_eq_getElem?_getD, List.getElem?_eq_getElem hidx]
      rfl
    have hsome : (ws.availabilitySlots.enum.find?
        (fun p => p.2.id = ws.lastBroadcastOrder.getD idx "")).isSome = true := by
      rw [List.find?_isSome]
      rw [List.any_eq_true] at hany
      rcases hany with ⟨s, hs, hid⟩
      rcases List.mem_iff_getElem?.1 hs with ⟨i, hi⟩
      exact ⟨(i, s), List.mem_enum_iff_getElem?.2 hi, hid⟩
    unfold resolveSlotIdx
    rw [if_pos hlen, hget]
    rcases hf : ws.availabilitySlots.enum.find?
        (fun p => p.2.id = ws.lastBroadcastOrder.getD idx "") with _ | p
    · rw [hf] at hsome
      simp at hsome
    · show (match ws.availabilitySlots.enum.find?
          (fun q => decide (q.2.id = ws.lastBroadcastOrder.getD idx "")) with
        | some q => Resolution.found q.1 q.2
        | none => fallbackResolve ws idx) =
        (match ws.availabilitySlots.enum.find?
            (fun q => decide (q.2.id = ws.lastBroadcastOrder.getD idx "")) with
        | some q => Resolution.found q.1 q.2
        | none => Resolution.unavailable)
      rw [hf]
  · intro hlen
    unfold resolveSlotIdx
    rw [if_neg (by omega)]

def c6Ws : Workspace :=
  { sheet := []
    clientsByWa := []
    statusByDigits := []
    availabilitySlots :=
      [{ id := "S1", start := 0, stop := 60, label := "a", booked := false, bookedBy := none },
       { id := "S2", start := 60, stop := 120, label := "b", booked := false, bookedBy := none }]
    lastBroadcastOrder := ["S2"] }

theorem resolveSlotIdx_spec_w :
    (0 + 1 ≤ c6Ws.lastBroadcastOrder.length ∧
        resolveSlotIdx c6Ws 0 =
          Resolution.found 1
            { id := "S2", start := 60, stop := 120, label := "b", booked := false,
              bookedBy := none }) ∧
      (c6Ws.lastBroadcastOrder.length < 1 + 1 ∧
        resolveSlotIdx c6Ws 1 = fallbackResolve c6Ws 1) :=
  ⟨⟨by decide, (resolveSlotIdx_spec c6Ws 0).1 (by decide) (by decide)⟩,
    ⟨by decide, (resolveSlotIdx_spec c6Ws 1).2 (by decide)⟩⟩

/-! ## Claim C2: the already-confirmed guard -/

/-- Claim C2, amended.  A numeric reply is rejected before resolution — with
a message naming the existing booking, no booking created and the workspace
map unchanged — exactly when the *first* sheet row whose digits
suffix-match the contact (the row `findRowByPhone` returns) has Status
`confirmed` (lowercased) *and* a non-empty Booked Date or Booked Time.
This covers every booking made by the engine itself (which writes
Confirmed plus both cells to that first row), so replayed duplicates are
rejected and no second booking arises; but a contact whose aggregate is
Confirmed only through some *other* row, or through a Confirmed row with
empty Booked Date and Time, is not rejected (see the counterexample). -/
theorem already_confirmed_rejected (st : GlobalState) (from_ k : String) (ws : Workspace)
    (wmap : List (String × String)) (n : Nat) (c : Client) (q : Nat × ExcelRow)
    (hnd : (st.workspaces.map Prod.fst).Nodup)
    (hf : from_ ≠ "")
    (hloc : locateWs st from_ = some (k, ws, wmap))
    (hn : n ≠ 0)
    (hc : mapGet ws.clientsByWa from_ = some c)
    (hrow : findRowByPhone ws.sheet c.phone = some q)
    (hst : jsToLower q.2.status = "confirmed")
    (hbk : q.2.bookedDate ≠ "" ∨ q.2.bookedTime ≠ "") :
    (handleInbound st from_ (MsgBody.num n)).2 =
        Outcome.alreadyConfirmed q.2.bookedDate q.2.bookedTime ∧
      (handleInbound st from_ (MsgBody.num n)).1.workspaces = st.workspaces := by
  have hguard : confirmedGuard ws (mapGet ws.clientsByWa from_) =
      some (q.2.bookedDate, q.2.bookedTime) := by
    rw [hc]
    unfold confirmedGuard
    rw [Option.some_bind, hrow]
    have hcond : (decide (jsToLower q.2.status = "confirmed") &&
        (!decide (q.2.bookedDate = "") || !decide (q.2.bookedTime = ""))) = true := by
      rw [hst]
      rcases hbk with hb | hb <;> simp [hb]
    show (if (decide (jsToLower q.2.status = "confirmed") &&
        (!decide (q.2.bookedDate = "") || !decide (q.2.bookedTime = ""))) = true then
      some (q.2.bookedDate, q.2.bookedTime) else none) = some (q.2.bookedDate, q.2.bookedTime)
    rw [if_pos hcond]
  have hpn : processNum ws from_ n =
      (ws, Outcome.alreadyConfirmed q.2.bookedDate q.2.bookedTime) := by
    unfold processNum
    rw [if_neg hn]
    show (match confirmedGuard ws (mapGet ws.clientsByWa from_) with
      | some dt => (ws, Outcome.alreadyConfirmed dt.1 dt.2)
      | none =>
        match resolveSlotIdx ws (n - 1) with
        | Resolution.unavailable => (ws, Outcome.unavailable)
        | Resolution.found i slot => bookSlot ws from_ (mapGet ws.clientsByWa from_) i slot) =
      (ws, Outcome.alreadyConfirmed q.2.bookedDate q.2.bookedTime)
    rw [hguard]
  have hmain : handleInbound st from_ (MsgBody.num n) =
      ({ workspaces := mapSet st.workspaces k ws, waToWs := wmap },
        Outcome.alreadyConfirmed q.2.bookedDate q.2.bookedTime) := by
    unfold handleInbound
    rw [if_neg hf, hloc]
    show (({
          workspaces := mapSet st.workspaces k (processNum ws from_ n).1
          waToWs := wmap } : GlobalState), (processNum ws from_ n).2) =
      (({ workspaces := mapSet st.workspaces k ws, waToWs := wmap } : GlobalState),
        Outcome.alreadyConfirmed q.2.bookedDate q.2.bookedTime)
    rw [hpn]
  refine ⟨by rw [hmain], ?_⟩
  rw [hmain]
  show mapSet st.workspaces k ws = st.workspaces
  exact mapSet_eq_self st.workspaces k ws hnd (locateWs_mapGet st from_ k ws wmap hnd hloc)

def c2OkRow : ExcelRow :=
  { clientName := "Cara", contactNumber := "96666666", bookedDate := "25 Aug",
    bookedTime := "1–2pm", status := "Confirmed", lastNotified := "ts" }

def c2OkState : GlobalState :=
  createWorkspace ⟨[], []⟩ "w2" [c2OkRow]

def c2OkWs : Workspace :=
  { sheet := [c2OkRow]
    clientsByWa := (buildClientMaps "w2" [c2OkRow] []).1
    statusByDigits := (buildClientMaps "w2" [c2OkRow] []).2.1
    availabilitySlots := []
    lastBroadcastOrder := [] }

def c2OkClient : Client :=
  { name := "Cara", phone := "96666666", rowIndex := 0, status := "confirmed",
    lastNotified := "ts" }

theorem already_confirmed_rejected_w :
    (handleInbound c2OkState "whatsapp:+6596666666" (MsgBody.num 1)).2 =
        Outcome.alreadyConfirmed c2OkRow.bookedDate c2OkRow.bookedTime ∧
      (handleInbound c2OkState "whatsapp:+6596666666" (MsgBody.num 1)).1.workspaces =
        c2OkState.workspaces :=
  already_confirmed_rejected c2OkState "whatsapp:+6596666666" "w2" c2OkWs
    c2OkState.waToWs 1 c2OkClient (0, c2OkRow) (by decide) (by decide) (by decide)
    (by decide) (by decide) (by decide) (by decide) (Or.inl (by decide))

def c2Row0 : ExcelRow :=
  { clientName := "Alice", contactNumber := "91234567", bookedDate := "", bookedTime := "",
    status := "Pending", lastNotified := "ts" }

def c2Row1 : ExcelRow :=
  { clientName := "Alice dup", contactNumber := "91234567", bookedDate := "25 Aug",
    bookedTime := "1–2pm", status := "Confirmed", lastNotified := "ts" }

/-- A reachable state: Alice has two sheet rows with the same number, the
second already Confirmed with a booked appointment, and one open slot. -/
def c2State : GlobalState :=
  setAvailabilityG (createWorkspace ⟨[], []⟩ "w1" [c2Row0, c2Row1]) "w1" "25 Aug 1-2pm" none

/-- Counterexample to claim C2.  Alice's aggregate status is Confirmed (her
second row is Confirmed with a booked date), yet her numeric reply is *not*
rejected before resolution: the guard inspects only the first
suffix-matching row (Status `Pending`), so the engine books her a second
appointment and the slot ends up taken. -/
theorem confirmed_aggregate_books_again :
    ((mapGet c2State.workspaces "w1").map
        (fun ws => (aggOf ws.statusByDigits "91234567").confirmed) = some true) ∧
      (handleInbound c2State "whatsapp:+6591234567" (MsgBody.num 1)).2.isConfirmed = true ∧
      ((handleInbound c2State "whatsapp:+6591234567" (MsgBody.num 1)).1.workspaces.map
        (fun p => p.2.availabilitySlots.map Slot.booked)) = [[true]] := by
  exact ⟨by decide, by decide, by decide⟩

/-! ## Claim C1: atomic check-and-set of `booked` -/

theorem resolve_found_get (ws : Workspace) (idx i : Nat) (slot : Slot)
    (h : resolveSlotIdx ws idx = Resolution.found i slot) :
    ws.availabilitySlots[i]? = some slot := by
  unfold resolveSlotIdx at h
  rcases hv : (if idx + 1 ≤ ws.lastBroadcastOrder.length then
      match ws.lastBroadcastOrder[idx]? with
      | some slotId => ws.availabilitySlots.enum.find? (fun p => p.2.id = slotId)
      | none => none
    else none) with _ | p
  · rw [hv] at h
    unfold fallbackResolve at h
    rcases hg : (ws.availabilitySlots.enum.filter (fun p => !p.2.booked))[idx]? with _ | p
    · rw [hg] at h
      exact Resolution.noConfusion h
    · rw [hg] at h
      injection h with h1 h2
      have hmem : p ∈ ws.availabilitySlots.enum.filter (fun q => !q.2.booked) := by
        rcases List.getElem?_eq_some.1 hg with ⟨hlt, hp⟩
        rw [← hp]
        exact List.getElem_mem hlt
      have hmem2 : p ∈ ws.availabilitySlots.enum := (List.mem_filter.1 hmem).1
      have hp2 := List.mem_enum_iff_getElem?.1 hmem2
      rw [← h1, ← h2]
      exact hp2
  · rw [hv] at h
    injection h with h1 h2
    have hmem2 : p ∈ ws.availabilitySlots.enum := by
      by_cases hlen : idx + 1 ≤ ws.lastBroadcastOrder.length
      · rw [if_pos hlen] at hv
        rcases ho : ws.lastBroadcastOrder[idx]? with _ | sid
        · rw [ho] at hv
          exact Option.noConfusion hv
        · rw [ho] at hv
          exact List.mem_of_find?_eq_some hv
      · rw [if_neg hlen] at hv
        exact Option.noConfusion hv
    have hp2 := List.mem_enum_iff_getElem?.1 hmem2
    rw [← h1, ← h2]
    exact hp2

theorem bookSlot_booked_taken (ws : Workspace) (from_ : String) (c? : Option Client)
    (i : Nat) (slot : Slot) (hb : slot.booked = true) :
    bookSlot ws from_ c? i slot = (ws, Outcome.taken) := by
  unfold bookSlot
  rw [if_pos hb]

theorem bookSlot_unbooked_books (ws : Workspace) (from_ : String) (c? : Option Client)
    (i : Nat) (slot : Slot) (hb : slot.booked = false) :
    (bookSlot ws from_ c? i slot).2 =
        Outcome.confirmed (humanSlotLabel slot.start slot.stop) ∧
      (bookSlot ws from_ c? i slot).1.availabilitySlots =
        ws.availabilitySlots.set i { slot with booked := true, bookedBy := some from_ } := by
  unfold bookSlot
  rw [if_neg (by rw [hb]; exact Bool.false_ne_true)]
  constructor
  · rfl
  · rcases c? with _ | c
    · rfl
    · simp only [Option.some_bind]
      rcases hq : findRowByPhone ws.sheet c.phone with _ | q
      · simp only [hq]
        by_cases hd : phoneDigitsOnly c.phone = ""
        · rw [if_pos hd]
        · rw [if_neg hd]
          rfl
      · simp only [hq]
        by_cases hd : phoneDigitsOnly c.phone = ""
        · rw [if_pos hd]
        · rw [if_neg hd]
          rfl

theorem processNum_found (ws : Workspace) (from_ : String) (n : Nat) (i : Nat) (slot : Slot)
    (hn : n ≠ 0)
    (hg : confirmedGuard ws (mapGet ws.clientsByWa from_) = none)
    (hr : resolveSlotIdx ws (n - 1) = Resolution.found i slot) :
    processNum ws from_ n = bookSlot ws from_ (mapGet ws.clientsByWa from_) i slot := by
  unfold processNum
  rw [if_neg hn]
  show (match confirmedGuard ws (mapGet ws.clientsByWa from_) with
    | some dt => (ws, Outcome.alreadyConfirmed dt.1 dt.2)
    | none =>
      match resolveSlotIdx ws (n - 1) with
      | Resolution.unavailable => (ws, Outcome.unavailable)
      | Resolution.found i slot => bookSlot ws from_ (mapGet ws.clientsByWa from_) i slot) =
    bookSlot ws from_ (mapGet ws.clientsByWa from_) i slot
  rw [hg, hr]

theorem handleInbound_num (st : GlobalState) (from_ k : String) (ws : Workspace)
    (wmap : List (String × String)) (n : Nat)
    (hf : from_ ≠ "") (hloc : locateWs st from_ = some (k, ws, wmap)) :
    handleInbound st from_ (MsgBody.num n) =
      ({ workspaces := mapSet st.workspaces k (processNum ws from_ n).1, waToWs := wmap },
        (processNum ws from_ n).2) := by
  unfold handleInbound
  rw [if_neg hf, hloc]

theorem inboundResolution_inv (st : GlobalState) (from_ : String) (n : Nat) (k : String) (i : Nat)
    (h : inboundResolution st from_ n = some (k, i)) :
    ∃ (ws : Workspace) (wmap : List (String × String)) (slot : Slot),
      from_ ≠ "" ∧ locateWs st from_ = some (k, ws, wmap) ∧ n ≠ 0 ∧
        confirmedGuard ws (mapGet ws.clientsByWa from_) = none ∧
        resolveSlotIdx ws (n - 1) = Resolution.found i slot := by
  unfold inboundResolution at h
  by_cases hf : from_ = ""
  · rw [if_pos hf] at h
    exact Option.noConfusion h
  · rw [if_neg hf] at h
    rcases hloc : locateWs st from_ with _ | triple
    · rw [hloc] at h
      exact Option.noConfusion h
    · rcases triple with ⟨k0, ws, wmap⟩
      rw [hloc] at h
      replace h : (if n = 0 then none
          else
            match confirmedGuard ws (mapGet ws.clientsByWa from_) with
            | some _ => none
            | none =>
              match resolveSlotIdx ws (n - 1) with
              | Resolution.unavailable => none
              | Resolution.found j _ => some (k0, j)) = some (k, i) := h
      by_cases hn : n = 0
      · rw [if_pos hn] at h
        exact Option.noConfusion h
      · rw [if_neg hn] at h
        rcases hg : confirmedGuard ws (mapGet ws.clientsByWa from_) with _ | dt
        · rw [hg] at h
          rcases hr : resolveSlotIdx ws (n - 1) with _ | ⟨i0, slot⟩
          · rw [hr] at h
            exact Option.noConfusion h
          · rw [hr] at h
            injection h with h1
            injection h1 with hk hi
            subst hk
            subst hi
            exact ⟨ws, wmap, slot, hf, rfl, hn, hg, hr⟩
        · rw [hg] at h
          exact Option.noConfusion h

/-! ## Claim C1: booking race — exactly one winner per slot -/

/-- Claim C1.  The inbound handler runs on Node's single-threaded event
loop, and lines 1444-1451 contain no `await` between reading
`slot.booked` and setting `booked`/`bookedBy`; the check-and-set is
therefore atomic with respect to any other booking attempt, and each
numeric reply is one atomic transition of the global state.  Two replies
racing for the same slot execute as the sequential composition of two
such transitions, modelled here with the second reply resolving against
the state left by the first.  Whenever both replies resolve to the same
unbooked slot `(k, i)`, exactly one booking succeeds: the first sender
books the slot (`booked := true`, `bookedBy := first sender`) and is sent
the confirmation, while the second observes `booked = true`, receives the
already-taken outcome, and changes no workspace state. -/
theorem booking_race_exactly_one
    (st st1 st2 : GlobalState) (f1 f2 : String) (n1 n2 : Nat) (k : String) (i : Nat)
    (o1 o2 : Outcome)
    (hnd : (st.workspaces.map Prod.fst).Nodup)
    (h1 : inboundResolution st f1 n1 = some (k, i))
    (hunb : slotBookedAt st k i = some false)
    (he1 : handleInbound st f1 (MsgBody.num n1) = (st1, o1))
    (h2 : inboundResolution st1 f2 n2 = some (k, i))
    (he2 : handleInbound st1 f2 (MsgBody.num n2) = (st2, o2)) :
    o1.isConfirmed = true ∧
      slotBookedAt st1 k i = some true ∧
      slotBookedByAt st1 k i = some (some f1) ∧
      o2 = Outcome.taken ∧
      st2.workspaces = st1.workspaces := by
  obtain ⟨ws, wmap, slot, hf1, hloc1, hn1, hg1, hr1⟩ := inboundResolution_inv st f1 n1 k i h1
  have hget : mapGet st.workspaces k = some ws := locateWs_mapGet st f1 k ws wmap hnd hloc1
  have hslot : ws.availabilitySlots[i]? = some slot := resolve_found_get ws (n1 - 1) i slot hr1
  have hb : slot.booked = false := by
    unfold slotBookedAt at hunb
    rw [hget, Option.some_bind, hslot] at hunb
    have h' : some slot.booked = some false := hunb
    injection h'
  obtain ⟨hilen, -⟩ := List.getElem?_eq_some.1 hslot
  obtain ⟨ho1', hsl1⟩ := bookSlot_unbooked_books ws f1 (mapGet ws.clientsByWa f1) i slot hb
  have hP1 : processNum ws f1 n1 = bookSlot ws f1 (mapGet ws.clientsByWa f1) i slot :=
    processNum_found ws f1 n1 i slot hn1 hg1 hr1
  have hH1 := handleInbound_num st f1 k ws wmap n1 hf1 hloc1
  rw [he1] at hH1
  injection hH1 with hst1 ho1
  have hw1 : st1.workspaces =
      mapSet st.workspaces k (bookSlot ws f1 (mapGet ws.clientsByWa f1) i slot).1 := by
    rw [hst1, hP1]
  have hget1 : mapGet st1.workspaces k =
      some (bookSlot ws f1 (mapGet ws.clientsByWa f1) i slot).1 := by
    rw [hw1]
    exact mapGet_mapSet_self st.workspaces k _
  have hbA : (bookSlot ws f1 (mapGet ws.clientsByWa f1) i slot).1.availabilitySlots[i]? =
      some { slot with booked := true, bookedBy := some f1 } := by
    rw [hsl1]
    exact List.getElem?_set_eq_of_lt _ hilen
  have hc1 : o1.isConfirmed = true := by
    rw [ho1, hP1, ho1']
    rfl
  have hc2 : slotBookedAt st1 k i = some true := by
    unfold slotBookedAt
    rw [hget1, Option.some_bind, hbA]
    rfl
  have hc3 : slotBookedByAt st1 k i = some (some f1) := by
    unfold slotBookedByAt
    rw [hget1, Option.some_bind, hbA]
    rfl
  have hnd1 : (st1.workspaces.map Prod.fst).Nodup := by
    rw [hw1]
    exact mapSet_keys_nodup st.workspaces k _ hnd
  obtain ⟨ws2, wmap2, slot2, hf2, hloc2, hn2, hg2, hr2⟩ := inboundResolution_inv st1 f2 n2 k i h2
  have hget2 : mapGet st1.workspaces k = some ws2 := locateWs_mapGet st1 f2 k ws2 wmap2 hnd1 hloc2
  have hws2 : ws2 = (bookSlot ws f1 (mapGet ws.clientsByWa f1) i slot).1 := by
    have h' := hget2.symm.trans hget1
    injection h'
  have hslot2 : ws2.availabilitySlots[i]? = some slot2 :=
    resolve_found_get ws2 (n2 - 1) i slot2 hr2
  have hslot2' : some slot2 = some { slot with booked := true, bookedBy := some f1 } := by
    rw [← hslot2, hws2, hbA]
  have hb2 : slot2.booked = true := by
    injection hslot2' with h'
    rw [h']
  have hP2 : processNum ws2 f2 n2 = bookSlot ws2 f2 (mapGet ws2.clientsByWa f2) i slot2 :=
    processNum_found ws2 f2 n2 i slot2 hn2 hg2 hr2
  have hbk2 : bookSlot ws2 f2 (mapGet ws2.clientsByWa f2) i slot2 = (ws2, Outcome.taken) :=
    bookSlot_booked_taken ws2 f2 (mapGet ws2.clientsByWa f2) i slot2 hb2
  have hH2 := handleInbound_num st1 f2 k ws2 wmap2 n2 hf2 hloc2
  rw [he2] at hH2
  injection hH2 with hst2 ho2
  have hc4 : o2 = Outcome.taken := by
    rw [ho2, hP2, hbk2]
  have hc5 : st2.workspaces = st1.workspaces := by
    rw [hst2]
    show mapSet st1.workspaces k (processNum ws2 f2 n2).1 = st1.workspaces
    rw [hP2, hbk2]
    show mapSet st1.workspaces k ws2 = st1.workspaces
    rw [hws2]
    exact mapSet_eq_self st1.workspaces k _ hnd1 hget1
  exact ⟨hc1, hc2, hc3, hc4, hc5⟩

def c1RowA : ExcelRow :=
  { clientName := "Ann", contactNumber := "93333333", bookedDate := "", bookedTime := "",
    status := "", lastNotified := "" }

def c1RowB : ExcelRow :=
  { clientName := "Ben", contactNumber := "94444444", bookedDate := "", bookedTime := "",
    status := "", lastNotified := "" }

/-- A reachable state: workspace `w1` with clients Ann and Ben, one open
slot set, and a broadcast committed (freezing the order snapshot). -/
def c1State : GlobalState :=
  let st0 := setAvailabilityG (createWorkspace ⟨[], []⟩ "w1" [c1RowA, c1RowB]) "w1"
    "25 Aug 1-2pm" none
  { st0 with workspaces := st0.workspaces.map (fun p => (p.1, broadcastCommit p.2)) }

def c1From1 : String := "whatsapp:+6593333333"

def c1From2 : String := "whatsapp:+6594444444"

def c1St1 : GlobalState := (handleInbound c1State c1From1 (MsgBody.num 1)).1

def c1O1 : Outcome := (handleInbound c1State c1From1 (MsgBody.num 1)).2

def c1St2 : GlobalState := (handleInbound c1St1 c1From2 (MsgBody.num 1)).1

def c1O2 : Outcome := (handleInbound c1St1 c1From2 (MsgBody.num 1)).2

theorem booking_race_exactly_one_w :
    c1O1.isConfirmed = true ∧
      slotBookedAt c1St1 "w1" 0 = some true ∧
      slotBookedByAt c1St1 "w1" 0 = some (some c1From1) ∧
      c1O2 = Outcome.taken ∧
      c1St2.workspaces = c1St1.workspaces :=
  booking_race_exactly_one c1State c1St1 c1St2 c1From1 c1From2 1 1 "w1" 0 c1O1 c1O2
    (by decide) (by decide) (by decide) rfl (by decide) rfl
